import Mathlib

/-!
Verification of the protolint core: the style/structure validator
(`validate` / `validateSyntax` from the validator module) and the
re-flow formatter (`format` from `src/lib/formatter.ts`).

Strings are modelled as `String` at the API boundary and as `List Char`
internally.  JavaScript string operations (`trim`, `split("\n")`,
`startsWith`, `includes`, `replace` with the concrete regular expressions
appearing in the source) are translated into explicit character-level
functions.  Whitespace is modelled as ASCII whitespace (the subset of
JavaScript's `\s` that can occur in the inputs considered here).
-/

namespace Protolint

abbrev Chars := List Char

/-- The `{` character (written via its code point). -/
def lbrace : Char := Char.ofNat 123

/-- The `}` character (written via its code point). -/
def rbrace : Char := Char.ofNat 125

/-- ASCII whitespace, modelling JavaScript `\s` / `trim()` whitespace. -/
def isWs (c : Char) : Bool :=
  c == ' ' || c == '\t' || c == '\n' || c == '\r' || c == '\x0b' || c == '\x0c'

/-- Decimal digit, modelling regex `\d` / `[0-9]`. -/
def isDigitCh (c : Char) : Bool := '0' ≤ c && c ≤ '9'

def isLowerCh (c : Char) : Bool := 'a' ≤ c && c ≤ 'z'

def isUpperCh (c : Char) : Bool := 'A' ≤ c && c ≤ 'Z'

/-- Word character, modelling regex `\w` = `[A-Za-z0-9_]`. -/
def isWordCh (c : Char) : Bool :=
  isLowerCh c || isUpperCh c || isDigitCh c || c == '_'

/-- `[A-Za-z0-9]`, the tail class of the PascalCase pattern. -/
def isAlnumCh (c : Char) : Bool := isLowerCh c || isUpperCh c || isDigitCh c

/-- `[a-z0-9]`. -/
def isLowerDigitCh (c : Char) : Bool := isLowerCh c || isDigitCh c

/-- `[A-Z0-9]`. -/
def isUpperDigitCh (c : Char) : Bool := isUpperCh c || isDigitCh c

/-- JavaScript `String.prototype.trimStart` (restricted to ASCII whitespace). -/
def trimL (cs : Chars) : Chars := cs.dropWhile isWs

/-- JavaScript `String.prototype.trimEnd`. -/
def trimR (cs : Chars) : Chars := (cs.reverse.dropWhile isWs).reverse

/-- JavaScript `String.prototype.trim`. -/
def trimB (cs : Chars) : Chars := trimL (trimR cs)

/-- JavaScript `content.split("\n")` on the character level. -/
def splitNl : Chars → List Chars
  | [] => [[]]
  | c :: r =>
    match splitNl r with
    | [] => [[c]]
    | h :: t => if c == '\n' then [] :: h :: t else (c :: h) :: t

/-- JavaScript `lines.join("\n")` on the character level. -/
def joinNl : List Chars → Chars
  | [] => []
  | [l] => l
  | l :: ls => l ++ '\n' :: joinNl ls

/-- Number of occurrences of a character, modelling `(s.match(/c/g) || []).length`. -/
def countCh (c : Char) (cs : Chars) : Nat := cs.countP (fun d => d == c)

/-- JavaScript `s.includes(c)` for a single character. -/
def hasCh (c : Char) (cs : Chars) : Bool := cs.any (fun d => d == c)

/-- JavaScript `s.startsWith(p)`. -/
def startsWith (p cs : Chars) : Bool := p.isPrefixOf cs

/-- JavaScript `s.endsWith(p)`. -/
def endsWith (p cs : Chars) : Bool := p.reverse.isPrefixOf cs.reverse

/-- JavaScript `s.includes(p)` for a string `p`. -/
def hasSub (p : Chars) : Chars → Bool
  | [] => p.isEmpty
  | c :: r => p.isPrefixOf (c :: r) || hasSub p r

/-- Drop a literal pattern from the front, returning the rest on success. -/
def dropPre : Chars → Chars → Option Chars
  | [], cs => some cs
  | _ :: _, [] => none
  | p :: ps, c :: cs => if c == p then dropPre ps cs else none

/-- Regex `\s+`: require at least one whitespace character, consume the run. -/
def chompWs1 : Chars → Option Chars
  | [] => none
  | c :: r => if isWs c then some (r.dropWhile isWs) else none

/-- Regex `\s*`. -/
def chompWs (cs : Chars) : Chars := cs.dropWhile isWs

/-- Regex `\w+`: returns the word run and the remainder. -/
def chompWord1 : Chars → Option (Chars × Chars)
  | cs =>
    let w := cs.takeWhile isWordCh
    if w.isEmpty then none else some (w, cs.dropWhile isWordCh)

/-- Regex `\d+`: returns the digit run and the remainder. -/
def chompDigits1 : Chars → Option (Chars × Chars)
  | cs =>
    let w := cs.takeWhile isDigitCh
    if w.isEmpty then none else some (w, cs.dropWhile isDigitCh)

/-- Regex `(?:\.\w+)*`, consumed greedily.  Structural recursion on a fuel
bounded by the input length; every iteration consumes at least two characters,
so the fuel never runs out on the `chompDotWords` entry point. -/
def chompDotWordsF : Nat → Chars → Chars
  | 0, cs => cs
  | fuel + 1, cs =>
    match cs with
    | '.' :: r =>
      (match chompWord1 r with
       | some (_, rest) => chompDotWordsF fuel rest
       | none => cs)
    | _ => cs

def chompDotWords (cs : Chars) : Chars := chompDotWordsF cs.length cs

/-- Decimal value of a digit run, modelling `parseInt(digits, 10)`. -/
def digitsToNat (ds : Chars) : Nat :=
  ds.foldl (fun n c => n * 10 + (c.toNat - '0'.toNat)) 0

/-- Decimal rendering of a `Nat`, for messages interpolating lengths. -/
def natToChars (n : Nat) : Chars := (Nat.repr n).data

/-- Severity of a reported issue. -/
inductive Severity where
  | error
  | warning
  | info
deriving DecidableEq, Repr

instance : BEq Severity := ⟨fun a b => decide (a = b)⟩

/-- One reported finding (the validator's `Issue`). -/
structure Issue where
  line : Nat
  column : Nat
  rule : String
  message : String
  severity : Severity
deriving DecidableEq, Repr

instance : BEq Issue := ⟨fun a b => decide (a = b)⟩

/-- The validator's `ValidationResult`. -/
structure ValidationResult where
  valid : Bool
  errors : List Issue
  warnings : List Issue
  info : List Issue
deriving DecidableEq, Repr

/-- Strict comparison `(a.line, a.column) < (b.line, b.column)`; the issue sort
comparator `(a, b) => a.line - b.line || a.column - b.column` orders ascending
by this key and is stable on ties. -/
def keyLtIssue (a b : Issue) : Bool :=
  a.line < b.line || (a.line == b.line && a.column < b.column)

/-- Stable insertion of an issue coming earlier in emission order: it is placed
before the first element whose key is not strictly smaller. -/
def insertSorted (x : Issue) : List Issue → List Issue
  | [] => [x]
  | y :: ys => if keyLtIssue y x then y :: insertSorted x ys else x :: y :: ys

/-- Stable sort by `(line, column)`, modelling the ES2019 stable `Array.sort`
with comparator `(a, b) => a.line - b.line || a.column - b.column`. -/
def sortIssues (l : List Issue) : List Issue := l.foldr insertSorted []

/-- `mkIssue` mirrors the validator's `issue(...)` helper. -/
def mkIssue (line column : Nat) (rule message : String) (severity : Severity) : Issue :=
  ⟨line, column, rule, message, severity⟩

/-- `trimmed.replace(/\/\/.*$/, "")`: everything from the first `//` on is
removed (`.` does not match a newline, and lines contain none). -/
def dropLineComment : Chars → Chars
  | [] => []
  | c :: r => if startsWith "//".data (c :: r) then [] else c :: dropLineComment r

/-- Test `^kw\s` (and, on nonempty-tail success, also `^kw\s+`; the two are
equivalent as tests): the literal keyword followed by a whitespace character. -/
def kwThenWs (kw : String) (code : Chars) : Bool :=
  match dropPre kw.data code with
  | some (c :: _) => isWs c
  | _ => false

/-- Test `^(message|enum|oneof|reserved|option|extensions|map<)` (a literal
prefix, no following whitespace required). -/
def isNestedDefB (code : Chars) : Bool :=
  startsWith "message".data code || startsWith "enum".data code ||
  startsWith "oneof".data code || startsWith "reserved".data code ||
  startsWith "option".data code || startsWith "extensions".data code ||
  startsWith "map<".data code

/-- Regex `map<[^>]+>` at the front: returns the remainder after `>`.
`[^>]+` cannot contain `>`, so the greedy run is forced. -/
def chompMapType (cs : Chars) : Option Chars :=
  match dropPre "map<".data cs with
  | none => none
  | some r =>
    let run := r.takeWhile (fun c => c != '>')
    if run.isEmpty then none
    else
      match r.dropWhile (fun c => c != '>') with
      | '>' :: r2 => some r2
      | _ => none

/-- Regex `\w+(?:\.\w+)*` at the front (greedy, deterministic because a word
run is maximal and a shrunk run would leave a word character where `\.` or
`\s` is required). -/
def chompWordDots (cs : Chars) : Option Chars :=
  match chompWord1 cs with
  | none => none
  | some (_, r) => some (chompDotWords r)

/-- Regex `\s+(\w+)` at the front: the captured identifier and the remainder. -/
def chompFieldName (cs : Chars) : Option (Chars × Chars) :=
  match chompWs1 cs with
  | none => none
  | some r => chompWord1 r

/-- The field-declaration regex family
`^(?:optional\s+|repeated\s+|required\s+)?(?:map<[^>]+>|\w+(?:\.\w+)*)\s+(\w+)` …
with a caller-supplied continuation for the part after the captured name.
Backtracking points of the regex are the optional label and the
`map<…>`-versus-dotted-word alternation; both are tried here in regex order,
each with the full continuation. Returns the captured name on success. -/
def fieldMatchCore (κ : Chars → Bool) (s : Chars) : Option Chars :=
  (match chompMapType s with
   | some r =>
     (match chompFieldName r with
      | some (n, rest) => if κ rest then some n else none
      | none => none)
   | none => none)
  <|>
  (match chompWordDots s with
   | some r =>
     (match chompFieldName r with
      | some (n, rest) => if κ rest then some n else none
      | none => none)
   | none => none)

def fieldMatchWith (κ : Chars → Bool) (cs : Chars) : Option Chars :=
  let tryLabel (kw : String) : Option Chars :=
    match dropPre kw.data cs with
    | some r =>
      (match chompWs1 r with
       | some r2 => fieldMatchCore κ r2
       | none => none)
    | none => none
  tryLabel "optional" <|> tryLabel "repeated" <|> tryLabel "required" <|>
    fieldMatchCore κ cs

/-- `validateSyntax`'s `isFieldDecl` test:
`^(?:optional\s+|repeated\s+|required\s+)?(?:map<[^>]+>|\w+(?:\.\w+)*)\s+\w+`. -/
def isFieldDeclB (code : Chars) : Bool :=
  (fieldMatchWith (fun _ => true) code).isSome

/-- Search (unanchored) for `=\s*\d+` from a given position; returns the
remainder after the digits when the position starts with `=`. -/
def eqNumAt : Chars → Option Chars
  | '=' :: r =>
    (match chompDigits1 (chompWs r) with
     | some (_, rest) => some rest
     | none => none)
  | _ => none

/-- Unanchored test `=\s*\d+\s*;`. -/
def searchEqNumSemi : Chars → Bool
  | [] => false
  | c :: r =>
    (match eqNumAt (c :: r) with
     | some rest => (match chompWs rest with | ';' :: _ => true | _ => false)
     | none => false) || searchEqNumSemi r

/-- Unanchored test `=\s*\d+\s*\[`. -/
def searchEqNumBracket : Chars → Bool
  | [] => false
  | c :: r =>
    (match eqNumAt (c :: r) with
     | some rest => (match chompWs rest with | '[' :: _ => true | _ => false)
     | none => false) || searchEqNumBracket r

/-- Unanchored test `=\s*\d+\s*$`. -/
def searchEqNumEnd : Chars → Bool
  | [] => false
  | c :: r =>
    (match eqNumAt (c :: r) with
     | some rest => (chompWs rest).isEmpty
     | none => false) || searchEqNumEnd r

/-- Anchored `^\w+\s*=\s*-?\d+`: returns the remainder after the digits.
`-?` is equivalent to: if `-` is present, digits must follow it. -/
def chompEnumValCore (cs : Chars) : Option Chars :=
  match chompWord1 cs with
  | none => none
  | some (_, r) =>
    match chompWs r with
    | '=' :: r2 =>
      let r3 := chompWs r2
      let r4 := match r3 with | '-' :: r5 => r5 | _ => r3
      (match chompDigits1 r4 with
       | some (_, rest) => some rest
       | none => none)
    | _ => none

/-- Test `^\w+\s*=\s*-?\d+\s*;`. -/
def enumValSemi (cs : Chars) : Bool :=
  match chompEnumValCore cs with
  | some rest => (match chompWs rest with | ';' :: _ => true | _ => false)
  | none => false

/-- Test `^\w+\s*=\s*-?\d+\s*\[`. -/
def enumValBracket (cs : Chars) : Bool :=
  match chompEnumValCore cs with
  | some rest => (match chompWs rest with | '[' :: _ => true | _ => false)
  | none => false

/-- Test `^\w+\s*=\s*-?\d+\s*$`. -/
def enumValEnd (cs : Chars) : Bool :=
  match chompEnumValCore cs with
  | some rest => (chompWs rest).isEmpty
  | none => false

/-- `^kw\s+(\w*)` for one keyword: the possibly-empty captured name. -/
def kwWsName (kw : String) (code : Chars) : Option Chars :=
  match dropPre kw.data code with
  | some r =>
    (match chompWs1 r with
     | some r2 => some (r2.takeWhile isWordCh)
     | none => none)
  | none => none

/-- Regex `^(message|enum|service|oneof)\s+(\w*)`: the matched keyword (tried
in regex alternation order) and the (possibly empty) captured name. -/
def blockMatch (code : Chars) : Option (String × Chars) :=
  match kwWsName "message" code with
  | some n => some ("message", n)
  | none =>
    match kwWsName "enum" code with
    | some n => some ("enum", n)
    | none =>
      match kwWsName "service" code with
      | some n => some ("service", n)
      | none =>
        match kwWsName "oneof" code with
        | some n => some ("oneof", n)
        | none => none

/-- Regex `\([^)]*\)` at the front: remainder after the closing paren. -/
def chompParens : Chars → Option Chars
  | '(' :: r =>
    (match r.dropWhile (fun c => c != ')') with
     | ')' :: r2 => some r2
     | _ => none)
  | _ => none

/-- Test `^rpc\s+\w+\s*\([^)]*\)\s+returns\s+\([^)]*\)\s*[;{]`. -/
def rpcShapeOk (code : Chars) : Bool :=
  match dropPre "rpc".data code with
  | none => false
  | some r =>
    match chompWs1 r with
    | none => false
    | some r1 =>
      match chompWord1 r1 with
      | none => false
      | some (_, r2) =>
        match chompParens (chompWs r2) with
        | none => false
        | some r3 =>
          match chompWs1 r3 with
          | none => false
          | some r4 =>
            match dropPre "returns".data r4 with
            | none => false
            | some r5 =>
              match chompWs1 r5 with
              | none => false
              | some r6 =>
                match chompParens r6 with
                | none => false
                | some r7 =>
                  match chompWs r7 with
                  | c :: _ => c == ';' || c == lbrace
                  | [] => false

/-- Regex `^syntax\s*=\s*"([^"]*)"\s*;`: the captured quoted value. -/
def syntaxValMatch (code : Chars) : Option Chars :=
  match dropPre "syntax".data code with
  | none => none
  | some r =>
    match chompWs r with
    | '=' :: r2 =>
      (match chompWs r2 with
       | '"' :: r3 =>
         let v := r3.takeWhile (fun c => c != '"')
         (match r3.dropWhile (fun c => c != '"') with
          | '"' :: r4 =>
            (match chompWs r4 with
             | ';' :: _ => some v
             | _ => none)
          | _ => none)
       | _ => none)
    | _ => none

/-- Index of the last occurrence of a character (JS `lastIndexOf`). -/
def lastIdxOf (c : Char) : Chars → Option Nat
  | [] => none
  | d :: r =>
    match lastIdxOf c r with
    | some k => some (k + 1)
    | none => if d == c then some 0 else none

/-- The `isKnown` whitelist of top-level statement shapes. -/
def isKnownTop (code : Chars) : Bool :=
  code == [rbrace] || code == [rbrace, ';'] ||
  kwThenWs "syntax" code || kwThenWs "package" code ||
  kwThenWs "import" code || kwThenWs "option" code ||
  kwThenWs "message" code || kwThenWs "enum" code ||
  kwThenWs "service" code || kwThenWs "extend" code ||
  (match code with
   | '/' :: c :: _ => c == '/' || c == '*'
   | _ => false) ||
  code == [lbrace]

/-- One entry of `validateSyntax`'s `braceStack`. -/
structure Ctx where
  type : String
  name : String
  line : Nat
deriving DecidableEq, Repr

/-- The mutable scan state of `validateSyntax`. The stack is kept in JS array
order: index 0 is the bottom, `push` appends at the end, `pop` drops the
last element. -/
structure SynState where
  stack : List Ctx
  expectingBody : Bool
  expectingType : String
  expectingName : String
  expectingLine : Nat
  issues : List Issue
deriving Repr

def synInit : SynState := ⟨[], false, "", "", 0, []⟩

/-- `braceStack[braceStack.length - 1].type`, or `""` on an empty stack. -/
def currentCtxType (st : SynState) : String :=
  match st.stack.getLast? with
  | some c => c.type
  | none => ""

/-- The closing-brace loop: pop `n` contexts, emitting one unexpected-brace
issue per `}` that finds the stack empty. -/
def popCloses : List Ctx → Nat → Nat → List Ctx × List Issue
  | stk, 0, _ => (stk, [])
  | stk, n + 1, ln =>
    if stk.isEmpty then
      let (s', is') := popCloses stk n ln
      (s', mkIssue ln 1 "syntax-error"
        ("Unexpected closing brace \"" ++ "\x7d" ++ "\".") .error :: is')
    else
      popCloses stk.dropLast n ln

/-- The message/oneof field-declaration check of `validateSyntax`. -/
def fieldDeclIssue (lineNum : Nat) (currentContext : String) (code : Chars) :
    List Issue :=
  if currentContext == "message" || currentContext == "oneof" then
    if isFieldDeclB code && !isNestedDefB code &&
        !(code == [rbrace] || code == [rbrace, ';']) then
      if !searchEqNumSemi code && !searchEqNumBracket code then
        if searchEqNumEnd code then
          [mkIssue lineNum 1 "syntax-error"
            "Field declaration is missing a trailing semicolon." .error]
        else
          [mkIssue lineNum 1 "syntax-error"
            "Field declaration is missing a valid field number." .error]
      else []
    else []
  else []

/-- The enum-value check of `validateSyntax`. -/
def enumDeclIssue (lineNum : Nat) (currentContext : String) (code : Chars) :
    List Issue :=
  if currentContext == "enum" then
    if !(code == [rbrace] || code == [rbrace, ';']) &&
        !startsWith "option ".data code &&
        !startsWith "reserved ".data code && (chompWord1 code).isSome then
      if !enumValSemi code && !enumValBracket code then
        if enumValEnd code then
          [mkIssue lineNum 1 "syntax-error"
            "Enum value is missing a trailing semicolon." .error]
        else
          [mkIssue lineNum 1 "syntax-error"
            "Enum value is missing a valid number assignment." .error]
      else []
    else []
  else []

/-- The block-opener / expecting-body handling of `validateSyntax`: issues,
the stack after a possible named push, and the new expecting-state tuple. -/
def blockOpenPart (stack : List Ctx) (expB : Bool) (expT expN : String)
    (expL : Nat) (bm : Option (String × Chars)) (code : Chars) (lineNum : Nat) :
    List Issue × List Ctx × (Bool × String × String × Nat) :=
  match bm with
  | some (ty, nameChars) =>
    if hasCh lbrace code then
      (if nameChars.isEmpty then
         [mkIssue lineNum 1 "syntax-error"
           (ty ++ " declaration is missing a name.") .error]
       else [],
       stack ++ [⟨ty, ⟨nameChars⟩, lineNum⟩], (expB, expT, expN, expL))
    else
      (if nameChars.isEmpty then
         [mkIssue lineNum 1 "syntax-error"
           (ty ++ " declaration is missing a name.") .error]
       else [],
       stack, (true, ty, ⟨nameChars⟩, lineNum))
  | none =>
    if expB then
      if startsWith [lbrace] code then
        ([], stack ++ [⟨expT, expN, expL⟩], (false, expT, expN, expL))
      else
        ([mkIssue expL 1 "syntax-error"
           (expT ++ " \"" ++ expN ++
             "\" is missing opening brace \"" ++ "\x7b" ++ "\"") .error],
         stack, (false, expT, expN, expL))
    else
      ([], stack, (false, expT, expN, expL))

/-- The malformed-rpc check. -/
def rpcDeclIssue (lineNum : Nat) (currentContext : String) (code : Chars) :
    List Issue :=
  if currentContext == "service" && startsWith "rpc ".data code &&
      !rpcShapeOk code then
    [mkIssue lineNum 1 "syntax-error"
      "Malformed rpc declaration. Expected: rpc Name(Request) returns (Response);"
      .error]
  else []

/-- The syntax-value check. -/
def syntaxValIssue (lineNum : Nat) (code : Chars) : List Issue :=
  match syntaxValMatch code with
  | some v =>
    if v == "proto2".data || v == "proto3".data then []
    else
      [mkIssue lineNum 1 "syntax-error"
        ("Invalid syntax value \"" ++ String.mk v ++
          "\". Must be \"proto2\" or \"proto3\".") .error]
  | none => []

/-- The trailing-content-after-semicolon check. -/
def junkIssue (lineNum : Nat) (code : Chars) : List Issue :=
  if hasCh ';' code && !endsWith ";".data code && !hasCh lbrace code then
    match lastIdxOf ';' code with
    | some k =>
      if !(trimB (code.drop (k + 1))).isEmpty &&
          !startsWith "//".data (trimB (code.drop (k + 1))) then
        [mkIssue lineNum (k + 2) "syntax-error"
          ("Unexpected content \"" ++ String.mk (trimB (code.drop (k + 1))) ++
            "\" after semicolon.") .error]
      else []
    | none => []
  else []

/-- The unrecognized-top-level-statement check. -/
def unrecognizedIssue (lineNum : Nat) (currentContext : String) (expB1 : Bool)
    (code : Chars) : List Issue :=
  if currentContext == "" && !expB1 then
    if isKnownTop code then []
    else
      [mkIssue lineNum 1 "syntax-error"
        ("Unrecognized statement: \"" ++ String.mk (code.take 40) ++
          (if code.length > 40 then "..." else "") ++ "\".") .error]
  else []

/-- The missing-trailing-semicolon check for simple statements. -/
def semiIssue (lineNum : Nat) (code : Chars) : List Issue :=
  if (kwThenWs "syntax" code || kwThenWs "package" code ||
      kwThenWs "import" code || kwThenWs "option" code) &&
      !endsWith ";".data code && !hasCh lbrace code then
    [mkIssue lineNum code.length "syntax-error"
      "Statement is missing a trailing semicolon." .error]
  else []

/-- One iteration of `validateSyntax`'s main loop, over one source line. -/
def synStep (st : SynState) (lineNum : Nat) (raw : Chars) : SynState :=
  let trimmed := trimB raw
  if trimmed.isEmpty || startsWith "//".data trimmed ||
      startsWith "/*".data trimmed || startsWith "*".data trimmed then st
  else
    let code := trimB (dropLineComment trimmed)
    if code.isEmpty then st
    else
      let openCount := countCh lbrace code
      let closeCount := countCh rbrace code
      let currentContext := currentCtxType st
      let i1 := fieldDeclIssue lineNum currentContext code
      let i2 := enumDeclIssue lineNum currentContext code
      let bm := blockMatch code
      let part3 := blockOpenPart st.stack st.expectingBody st.expectingType
        st.expectingName st.expectingLine bm code lineNum
      let i3 := part3.1
      let stack1 := part3.2.1
      let expb := part3.2.2
      let anonOpens := if bm.isSome then openCount - 1 else openCount
      let stack2 := stack1 ++ List.replicate anonOpens ⟨"block", "", lineNum⟩
      let closed := popCloses stack2 closeCount lineNum
      let stack3 := closed.1
      let iClose := closed.2
      let i4 := rpcDeclIssue lineNum currentContext code
      let i5 := syntaxValIssue lineNum code
      let i6 := junkIssue lineNum code
      let i7 := unrecognizedIssue lineNum currentContext expb.1 code
      let i8 := semiIssue lineNum code
      { stack := stack3
        expectingBody := expb.1
        expectingType := expb.2.1
        expectingName := expb.2.2.1
        expectingLine := expb.2.2.2
        issues := st.issues ++ i1 ++ i2 ++ i3 ++ iClose ++ i4 ++ i5 ++ i6 ++ i7 ++ i8 }

def synLoop : SynState → Nat → List Chars → SynState
  | st, _, [] => st
  | st, n, l :: ls => synLoop (synStep st n l) (n + 1) ls

/-- The final state of `validateSyntax`'s scan over the line list. -/
def synScan (lines : List Chars) : SynState := synLoop synInit 1 lines

/-- The unclosed-context issue emitted for one context left on the stack. -/
def mkUnclosedIssue (c : Ctx) : Issue :=
  mkIssue c.line 1 "syntax-error"
    ("Unclosed " ++ c.type ++ " \"" ++ c.name ++
      "\" — missing closing brace \"" ++ "\x7d" ++ "\".") .error

/-- `validateSyntax(lines)`: the loop's issues followed by one unclosed-context
issue per context remaining on the brace stack, bottom to top. -/
def validateSyntaxIssues (lines : List Chars) : List Issue :=
  let st := synScan lines
  st.issues ++ st.stack.map mkUnclosedIssue

/-- `PASCAL_RE = /^[A-Z][A-Za-z0-9]*$/`. -/
def pascalOk : Chars → Bool
  | [] => false
  | c :: r => isUpperCh c && r.all isAlnumCh

/-- `SNAKE_RE = /^[a-z][a-z0-9]*(_[a-z0-9]+)*$/`:
equivalently, splitting on `_` gives a first piece that is a nonempty
`[a-z][a-z0-9]*` run and further pieces that are nonempty `[a-z0-9]+` runs. -/
def snakeOk (cs : Chars) : Bool :=
  match cs.splitOn '_' with
  | [] => false
  | p0 :: ps =>
    (match p0 with
     | c :: r => isLowerCh c && r.all isLowerDigitCh
     | [] => false) &&
    ps.all (fun p => !p.isEmpty && p.all isLowerDigitCh)

/-- `UPPER_SNAKE_RE = /^[A-Z][A-Z0-9]*(_[A-Z0-9]+)*$/`, by the same splitting. -/
def upperSnakeOk (cs : Chars) : Bool :=
  match cs.splitOn '_' with
  | [] => false
  | p0 :: ps =>
    (match p0 with
     | c :: r => isUpperCh c && r.all isUpperDigitCh
     | [] => false) &&
    ps.all (fun p => !p.isEmpty && p.all isUpperDigitCh)

/-- Regex `^kw\s+(\w+)` with a required nonempty captured name
(`msgMatch` / `enumMatch` of the style pass). -/
def kwNameMatch (kw : String) (cs : Chars) : Option Chars :=
  match dropPre kw.data cs with
  | some r =>
    (match chompWs1 r with
     | some r2 =>
       (match chompWord1 r2 with
        | some (w, _) => some w
        | none => none)
     | none => none)
  | none => none

/-- Regex `^(\w+)\s*=\s*(\d+)` (`valMatch` of the enum-value accumulation):
the captured name and digit run. -/
def enumValCapture (cs : Chars) : Option (Chars × Chars) :=
  match chompWord1 cs with
  | none => none
  | some (w, r) =>
    match chompWs r with
    | '=' :: r2 =>
      (match chompDigits1 (chompWs r2) with
       | some (d, _) => some (w, d)
       | none => none)
    | _ => none

/-- The style pass's full field regex
`^(?:optional\s+|repeated\s+|required\s+)?(?:map<[^>]+>|\w+(?:\.\w+)*)\s+(\w+)\s*=\s*\d+`:
the captured field name. -/
def fieldNameCapture (cs : Chars) : Option Chars :=
  fieldMatchWith
    (fun rest =>
      match chompWs rest with
      | '=' :: r2 => (chompDigits1 (chompWs r2)).isSome
      | _ => false)
    cs

/-- JS `s.endsWith(suffix)` on `String`s. -/
def strEndsWith (suf s : String) : Bool := endsWith suf.data s.data

/-- One accumulated enum value `{name, number, line}`. -/
structure EnumVal where
  name : String
  number : Nat
  line : Nat
deriving DecidableEq, Repr

/-- The per-enum accumulator `{name, startLine, values}`. -/
structure EnumAcc where
  name : String
  startLine : Nat
  values : List EnumVal
deriving DecidableEq, Repr

/-- The check run when an enum block closes: if any value was accumulated and
the first one is not `= 0` or not named with an `UNSPECIFIED` suffix, one
`enum-first-value-unspecified` error attributed to the enum's opening line. -/
def enumCloseIssues (e : EnumAcc) : List Issue :=
  match e.values with
  | [] => []
  | first :: _ =>
    if first.number != 0 || !strEndsWith "UNSPECIFIED" first.name then
      [mkIssue e.startLine 1 "enum-first-value-unspecified"
        ("Enum \"" ++ e.name ++
          "\" should have an UNSPECIFIED value as the first entry (= 0).") .error]
    else []

/-- One collected import line `{line, text, isPublic}`. -/
structure ImportRec where
  line : Nat
  text : String
  isPublic : Bool
deriving DecidableEq, Repr

/-- The style pass's mutable state. -/
structure StyleState where
  issues : List Issue
  hasSyntax : Bool
  hasPackage : Bool
  syntaxLine : Int
  packageLine : Int
  firstImportLine : Int
  lastImportLine : Int
  importLines : List ImportRec
  prevLineIsComment : Bool
  enumBlocks : List EnumAcc
  currentEnum : Option EnumAcc
  braceDepth : Int
  inService : Bool
  serviceHasComment : Bool
  inEnum : Bool
deriving Repr

def styleInit : StyleState :=
  ⟨[], false, false, -1, -1, -1, -1, [], false, [], none, 0, false, false, false⟩

/-- The enum-value accumulation on one line: `valMatch` appends a recognized
`name = number` value (flagging a non-UPPER_SNAKE_CASE name). -/
def enumValAccum (ce : EnumAcc) (lineNum : Nat) (trimmed : Chars) :
    List Issue × EnumAcc :=
  match enumValCapture trimmed with
  | some (vName, digits) =>
    let v : EnumVal := ⟨⟨vName⟩, digitsToNat digits, lineNum⟩
    let ce' := { ce with values := ce.values ++ [v] }
    if !upperSnakeOk vName then
      ([mkIssue lineNum 1 "enum-value-upper-snake-case"
         ("Enum value \"" ++ String.mk vName ++
           "\" should be UPPER_SNAKE_CASE.") .error], ce')
    else ([], ce')
  | none => ([], ce)

/-- The `if (inEnum && currentEnum)` block of the style loop: accumulate a
value and, when the line contains `}`, run the close check and retire the
accumulator.  Returns (issues, currentEnum', inEnum', enumBlocks'). -/
def enumValPart (currentEnum0 : Option EnumAcc) (inEnum0 : Bool)
    (enumBlocks : List EnumAcc) (lineNum : Nat) (trimmed : Chars) :
    List Issue × Option EnumAcc × Bool × List EnumAcc :=
  match currentEnum0 with
  | some ce =>
    if inEnum0 then
      let valPart := enumValAccum ce lineNum trimmed
      let ce1 := valPart.2
      if hasCh rbrace trimmed then
        (valPart.1 ++ enumCloseIssues ce1, none, false, enumBlocks ++ [ce1])
      else
        (valPart.1, some ce1, true, enumBlocks)
    else ([], currentEnum0, inEnum0, enumBlocks)
  | none => ([], currentEnum0, inEnum0, enumBlocks)

/-- The brace-depth loop over a line's characters: `{` increments, `}`
decrements, and `inService` is cleared whenever the depth returns to 0. -/
def depthFold : Int → Bool → Chars → Int × Bool
  | d, sv, [] => (d, sv)
  | d, sv, c :: r =>
    if c == lbrace then depthFold (d + 1) sv r
    else if c == rbrace then
      depthFold (d - 1) (if d - 1 == 0 then false else sv) r
    else depthFold d sv r

/-- The max-line-length check for one raw line. -/
def maxLineIssue (lineNum : Nat) (raw : Chars) : List Issue :=
  if raw.length > 80 then
    [mkIssue lineNum 81 "max-line-length"
      ("Line exceeds 80 characters (" ++ Nat.repr raw.length ++ ").") .warning]
  else []

/-- The message-naming check for one trimmed line. -/
def msgNameIssue (lineNum : Nat) (trimmed : Chars) : List Issue :=
  match kwNameMatch "message" trimmed with
  | some name =>
    if !pascalOk name then
      [mkIssue lineNum 1 "message-name-pascal-case"
        ("Message name \"" ++ String.mk name ++ "\" should be PascalCase.") .error]
    else []
  | none => []

/-- The enum-naming check for one trimmed line. -/
def enumNameIssue (lineNum : Nat) (enumOpen : Option Chars) : List Issue :=
  match enumOpen with
  | some name =>
    if !pascalOk name then
      [mkIssue lineNum 1 "enum-name-pascal-case"
        ("Enum name \"" ++ String.mk name ++ "\" should be PascalCase.") .error]
    else []
  | none => []

/-- The field-naming check (skipped inside an enum). -/
def fieldNameIssue (lineNum : Nat) (trimmed : Chars) (inEnum1 : Bool) : List Issue :=
  match fieldNameCapture trimmed with
  | some fName =>
    if !inEnum1 then
      if !snakeOk fName then
        [mkIssue lineNum 1 "field-name-snake-case"
          ("Field name \"" ++ String.mk fName ++ "\" should be snake_case.") .error]
      else []
    else []
  | none => []

/-- The service-comment check. -/
def serviceCommentIssue (lineNum : Nat) (isService prevComment : Bool) : List Issue :=
  if isService && !prevComment then
    [mkIssue lineNum 1 "service-comment" "Service should have a comment." .warning]
  else []

/-- The rpc-comment check. -/
def rpcCommentIssue (lineNum : Nat) (trimmed : Chars)
    (inService0 prevComment : Bool) : List Issue :=
  if inService0 && startsWith "rpc ".data trimmed && !prevComment then
    [mkIssue lineNum 1 "rpc-comment" "RPC should have a comment." .warning]
  else []

/-- One iteration of `validate`'s style loop, over one source line. -/
def styleStep (st : StyleState) (lineNum : Nat) (raw : Chars) : StyleState :=
  let trimmed := trimB raw
  let iMl := maxLineIssue lineNum raw
  let isComment := startsWith "//".data trimmed || startsWith "/*".data trimmed ||
    startsWith "*".data trimmed
  let hasSyntax := st.hasSyntax || startsWith "syntax".data trimmed
  let syntaxLine := if startsWith "syntax".data trimmed then (lineNum : Int) else st.syntaxLine
  let hasPackage := st.hasPackage || startsWith "package ".data trimmed
  let packageLine := if startsWith "package ".data trimmed then (lineNum : Int) else st.packageLine
  let isImport := startsWith "import ".data trimmed
  let isPublic := startsWith "import public ".data trimmed
  let firstImportLine :=
    if isImport && st.firstImportLine == -1 then (lineNum : Int) else st.firstImportLine
  let lastImportLine := if isImport then (lineNum : Int) else st.lastImportLine
  let importLines :=
    if isImport then st.importLines ++ [⟨lineNum, ⟨trimmed⟩, isPublic⟩] else st.importLines
  let iMsg := msgNameIssue lineNum trimmed
  let enumOpen := kwNameMatch "enum" trimmed
  let iEnumName := enumNameIssue lineNum enumOpen
  let currentEnum0 : Option EnumAcc :=
    match enumOpen with
    | some name => some ⟨⟨name⟩, lineNum, []⟩
    | none => st.currentEnum
  let inEnum0 := if enumOpen.isSome then true else st.inEnum
  let enumPart := enumValPart currentEnum0 inEnum0 st.enumBlocks lineNum trimmed
  let iEnumVals := enumPart.1
  let currentEnum1 := enumPart.2.1
  let inEnum1 := enumPart.2.2.1
  let enumBlocks1 := enumPart.2.2.2
  let iField := fieldNameIssue lineNum trimmed inEnum1
  let isService := startsWith "service ".data trimmed
  let inService0 := if isService then true else st.inService
  let serviceHasComment0 :=
    if isService then st.prevLineIsComment else st.serviceHasComment
  let iService := serviceCommentIssue lineNum isService st.prevLineIsComment
  let iRpc := rpcCommentIssue lineNum trimmed inService0 st.prevLineIsComment
  let db := depthFold st.braceDepth inService0 trimmed
  { issues := st.issues ++ iMl ++ iMsg ++ iEnumName ++ iEnumVals ++ iField ++
      iService ++ iRpc
    hasSyntax := hasSyntax
    hasPackage := hasPackage
    syntaxLine := syntaxLine
    packageLine := packageLine
    firstImportLine := firstImportLine
    lastImportLine := lastImportLine
    importLines := importLines
    prevLineIsComment := isComment
    enumBlocks := enumBlocks1
    currentEnum := currentEnum1
    braceDepth := db.1
    inService := db.2
    serviceHasComment := serviceHasComment0
    inEnum := inEnum1 }

def styleLoop : StyleState → Nat → List Chars → StyleState
  | st, _, [] => st
  | st, n, l :: ls => styleLoop (styleStep st n l) (n + 1) ls

/-- The final state of `validate`'s style loop over the line list. -/
def styleScan (lines : List Chars) : StyleState := styleLoop styleInit 1 lines

/-- The import-ordering pass: a public import appearing after any
non-public import has been seen is flagged. -/
def importOrderIssues : Bool → List ImportRec → List Issue
  | _, [] => []
  | seen, imp :: rest =>
    let seen' := if !imp.isPublic then true else seen
    (if imp.isPublic && seen then
       [mkIssue imp.line 1 "import-ordering"
         "Public imports should come before other imports." .warning]
     else []) ++ importOrderIssues seen' rest

/-- The file-structure checks run after the style loop. -/
def fileStructureIssues (fs : StyleState) : List Issue :=
  (if !fs.hasSyntax then
     [mkIssue 1 1 "syntax-declaration"
       "File should start with a syntax declaration (e.g., syntax = \"proto3\";)."
       .error]
   else []) ++
  (if !fs.hasPackage then
     [mkIssue 1 1 "package-declaration" "File should declare a package." .warning]
   else []) ++
  (if fs.hasSyntax && fs.hasPackage && fs.packageLine < fs.syntaxLine then
     [mkIssue fs.packageLine.toNat 1 "file-structure"
       "Package declaration should come after the syntax declaration." .error]
   else [])

/-- All issues of one `validate` call, in emission order: the trailing-newline
check, the style loop, the file-structure checks, the import-ordering pass,
then the appended `validateSyntax` issues. -/
def collectIssues (content : String) : List Issue :=
  let cs := content.data
  let lines := splitNl cs
  let tn : List Issue :=
    if cs.length > 0 && !endsWith "\n".data cs then
      [mkIssue lines.length 1 "trailing-newline"
        "File should end with a trailing newline." .warning]
    else []
  let fs := styleScan lines
  tn ++ fs.issues ++ fileStructureIssues fs ++
    importOrderIssues false fs.importLines ++ validateSyntaxIssues lines

/-- `validate(content)`: collect, sort stably by `(line, column)`, partition by
severity; `valid` is `errors.length === 0`. -/
def validate (content : String) : ValidationResult :=
  let sorted := sortIssues (collectIssues content)
  let errors := sorted.filter (fun i => i.severity == Severity.error)
  let warnings := sorted.filter (fun i => i.severity == Severity.warning)
  let info := sorted.filter (fun i => i.severity == Severity.info)
  ⟨errors.length == 0, errors, warnings, info⟩

/-- The formatter's pre-split regex `^(.+;\s*)(}\s*)$` applied to a trimmed
line: the last character must be `}` (group 2; its `\s*` is empty after
trimming), and group 1 — the rest — must match `.+;\s*`, i.e. end, after
dropping trailing whitespace, in a `;` preceded by at least one character.
Returns group 1 on success. -/
def splitSemiBrace (t : Chars) : Option Chars :=
  match t.getLast? with
  | some c =>
    if c == rbrace then
      let g1 := t.dropLast
      let u := trimR g1
      match u.getLast? with
      | some d => if d == ';' && u.length ≥ 2 then some g1 else none
      | none => none
    else none
  | none => none

/-- The formatter's pre-processing of one raw line: split `…; }` into two
lines unless the line is a `//` comment. -/
def preSplitLine (raw : Chars) : List Chars :=
  let trimmed := trimB raw
  match splitSemiBrace trimmed with
  | some g1 =>
    if startsWith "//".data trimmed then [raw] else [trimB g1, [rbrace]]
  | none => [raw]

def preSplit (lines : List Chars) : List Chars := (lines.map preSplitLine).flatten

/-- One formatter token `{text, depth, type}`. -/
structure FTok where
  text : Chars
  depth : Nat
  type : String
deriving DecidableEq, Repr

/-- `text.replace(/\s+/, " ")` (non-global): the first whitespace run becomes
one space. -/
def replaceFirstWsRun : Chars → Chars
  | [] => []
  | c :: r => if isWs c then ' ' :: r.dropWhile isWs else c :: replaceFirstWsRun r

/-- `text.replace(/\s*=\s*/, " = ")` (non-global): the leftmost match starts at
the whitespace run preceding the first reachable `=` (or at the `=` itself). -/
def replaceFirstEq : Chars → Chars
  | [] => []
  | c :: r =>
    if c == '=' then ' ' :: '=' :: ' ' :: r.dropWhile isWs
    else if isWs c then
      match r.dropWhile isWs with
      | '=' :: r2 => ' ' :: '=' :: ' ' :: r2.dropWhile isWs
      | _ => c :: replaceFirstEq r
    else c :: replaceFirstEq r

/-- `text.replace(/\s+;/, ";")` (non-global): the first whitespace run that is
immediately followed by `;` is removed (shrinking the greedy `\s+` cannot
create a match elsewhere in the same run). -/
def replaceFirstWsSemi : Chars → Chars
  | [] => []
  | c :: r =>
    if isWs c then
      match r.dropWhile isWs with
      | ';' :: r2 => ';' :: r2
      | _ => c :: replaceFirstWsSemi r
    else c :: replaceFirstWsSemi r

/-- `text.replace(/\(\s+/g, "(")`: every whitespace run directly after `(` is
removed; scanning resumes after each match.  Structural recursion on a fuel
bounded by the input length (each step consumes at least one character, so the
fuel never runs out on the entry point; the 0 case is unreachable). -/
def remWsAfterParenF : Nat → Chars → Chars
  | 0, cs => cs
  | _ + 1, [] => []
  | fuel + 1, c :: r =>
    if c == '(' then '(' :: remWsAfterParenF fuel (r.dropWhile isWs)
    else c :: remWsAfterParenF fuel r

def remWsAfterParen (cs : Chars) : Chars := remWsAfterParenF cs.length cs

/-- `text.replace(/\s+\)/g, ")")`: every whitespace run directly followed by
`)` is removed (a run not followed by `)` matches at none of its positions).
Fuelled like `remWsAfterParenF`. -/
def remWsBeforeParenF : Nat → Chars → Chars
  | 0, cs => cs
  | _ + 1, [] => []
  | fuel + 1, c :: r =>
    if isWs c then
      match r.dropWhile isWs with
      | ')' :: r2 => ')' :: remWsBeforeParenF fuel r2
      | _ => c :: remWsBeforeParenF fuel r
    else c :: remWsBeforeParenF fuel r

def remWsBeforeParen (cs : Chars) : Chars := remWsBeforeParenF cs.length cs

/-- `text.replace(/\)\s+returns\s+\(/, ") returns (")` (non-global): the greedy
`\s+` runs are forced, so the first `)` followed by ws, `returns`, ws, `(`
is rewritten and the remainder kept verbatim. -/
def replaceRetParen : Chars → Chars
  | [] => []
  | c :: r =>
    if c == ')' then
      match chompWs1 r with
      | some r1 =>
        (match dropPre "returns".data r1 with
         | some r2 =>
           (match chompWs1 r2 with
            | some r3 =>
              (match r3 with
               | '(' :: r4 => ") returns (".data ++ r4
               | _ => c :: replaceRetParen r)
            | none => c :: replaceRetParen r)
         | none => c :: replaceRetParen r)
      | none => c :: replaceRetParen r
    else c :: replaceRetParen r

/-- `BLOCK_OPENERS = /^(message|enum|service|oneof|extend)\s+/` as a test. -/
def blockOpenerTest (cs : Chars) : Bool :=
  kwThenWs "message" cs || kwThenWs "enum" cs || kwThenWs "service" cs ||
  kwThenWs "oneof" cs || kwThenWs "extend" cs

/-- One keyword's `^kw\s+ → "kw "` rewrite, when it applies. -/
def kwWsNorm (kw : String) (cs : Chars) : Option Chars :=
  match dropPre kw.data cs with
  | some r =>
    (match chompWs1 r with
     | some r2 => some (kw.data ++ ' ' :: r2)
     | none => none)
  | none => none

/-- `text.replace(/^(message|enum|service|oneof|extend)\s+/, "$1 ")`, keywords
tried in regex alternation order. -/
def normalizeBlockKw (cs : Chars) : Chars :=
  match kwWsNorm "message" cs with
  | some v => v
  | none =>
    match kwWsNorm "enum" cs with
    | some v => v
    | none =>
      match kwWsNorm "service" cs with
      | some v => v
      | none =>
        match kwWsNorm "oneof" cs with
        | some v => v
        | none =>
          match kwWsNorm "extend" cs with
          | some v => v
          | none => cs

/-- `text.replace(/\s+\{$/, " {")`: a nonempty trailing whitespace run before a
final `{` collapses to one space. -/
def normalizeBraceEnd (cs : Chars) : Chars :=
  match cs.getLast? with
  | some c =>
    if c == lbrace then
      let body := cs.dropLast
      let body' := trimR body
      if body'.length < body.length then body' ++ [' ', lbrace] else cs
    else cs
  | none => cs

/-- `RPC_WITH_BODY = /^rpc\s+.*\{$/` as a test (lines never contain `\n`, so
`.*` spans the rest of the line). -/
def rpcWithBody (cs : Chars) : Bool :=
  match dropPre "rpc".data cs with
  | some (c :: rest) => isWs c && (c :: rest).getLast? == some lbrace
  | _ => false

/-- The formatter's field test `^(?:optional\s+|repeated\s+|required\s+)?(?:map<[^>]+>|\w+(?:\.\w+)*)\s+\w+\s*=`. -/
def fmtFieldTest (cs : Chars) : Bool :=
  (fieldMatchWith
    (fun rest =>
      match chompWs rest with
      | '=' :: _ => true
      | _ => false) cs).isSome

/-- Classification and per-category normalization of one trimmed line
(the `else if` chain of the formatter's first pass). -/
def classifyLine (trimmed : Chars) : Chars × String :=
  if kwThenWs "syntax" trimmed then (replaceFirstWsRun trimmed, "syntax")
  else if kwThenWs "package" trimmed then (replaceFirstWsRun trimmed, "package")
  else if kwThenWs "import" trimmed then (replaceFirstWsRun trimmed, "import")
  else if kwThenWs "option" trimmed then (replaceFirstWsRun trimmed, "option")
  else if startsWith "//".data trimmed || startsWith "*".data trimmed then
    (trimmed, "comment")
  else if blockOpenerTest trimmed then
    (normalizeBraceEnd (normalizeBlockKw trimmed), "block")
  else if startsWith "rpc ".data trimmed then
    (replaceFirstWsSemi (replaceRetParen (remWsBeforeParen (remWsAfterParen trimmed))),
     "rpc")
  else if fmtFieldTest trimmed then
    (replaceFirstWsSemi (replaceFirstEq trimmed), "field")
  else if enumValSemi trimmed then
    (replaceFirstWsSemi (replaceFirstEq trimmed), "enumval")
  else if kwThenWs "reserved" trimmed then (trimmed, "reserved")
  else (trimmed, "other")

/-- `opensBlock` of the formatter's first pass. -/
def opensBlockTest (trimmed text : Chars) : Bool :=
  (blockOpenerTest trimmed && endsWith [lbrace] text) ||
  rpcWithBody text ||
  (endsWith [lbrace] text && !startsWith "//".data text)

/-- The formatter's first pass: trim, track block comments, skip blank lines,
handle closing braces, classify/normalize, merge a block opener with a
following lone `{` line (skipping blank lines in between), and track depth.
Structural recursion on a fuel bounded by the number of remaining lines (every
step consumes at least one line, so the fuel never runs out on the entry
point; the 0 case is unreachable). -/
def firstPassF : Nat → List Chars → Nat → Bool → List FTok
  | 0, _, _, _ => []
  | _ + 1, [], _, _ => []
  | fuel + 1, raw :: rest, depth, inBC =>
    let trimmed := trimB (trimR raw)
    if inBC then
      ⟨trimmed, depth, "comment"⟩ ::
        firstPassF fuel rest depth (!hasSub "*/".data trimmed)
    else if startsWith "/*".data trimmed then
      ⟨trimmed, depth, "comment"⟩ ::
        firstPassF fuel rest depth (!hasSub "*/".data trimmed)
    else if trimmed.isEmpty then firstPassF fuel rest depth false
    else if trimmed == [rbrace] || trimmed == [rbrace, ';'] then
      ⟨trimmed, depth - 1, "close"⟩ :: firstPassF fuel rest (depth - 1) false
    else
      let ct := classifyLine trimmed
      if blockOpenerTest ct.1 && !hasCh lbrace ct.1 then
        match rest.dropWhile (fun l => (trimB l).isEmpty) with
        | l2 :: rest2 =>
          if trimB l2 == [lbrace] then
            let text := ct.1 ++ [' ', lbrace]
            ⟨text, depth, ct.2⟩ ::
              firstPassF fuel rest2
                (if opensBlockTest trimmed text then depth + 1 else depth) false
          else
            ⟨ct.1, depth, ct.2⟩ ::
              firstPassF fuel rest
                (if opensBlockTest trimmed ct.1 then depth + 1 else depth) false
        | [] =>
          ⟨ct.1, depth, ct.2⟩ ::
            firstPassF fuel rest
              (if opensBlockTest trimmed ct.1 then depth + 1 else depth) false
      else
        ⟨ct.1, depth, ct.2⟩ ::
          firstPassF fuel rest
            (if opensBlockTest trimmed ct.1 then depth + 1 else depth) false

def firstPass (lines : List Chars) (depth : Nat) (inBC : Bool) : List FTok :=
  firstPassF lines.length lines depth inBC

/-- `shouldInsertBlankLine(prev, curr)`: the blank-line adjacency policy.
Every JS path after the depth-0 block returns `false`, so the trailing
`if (curr.depth > 0) return false; return false;` collapses to `false`. -/
def shouldInsertBlankLine (prev curr : FTok) : Bool :=
  if prev.type == "close" && curr.type != "close" then true
  else if prev.depth == 0 && curr.depth == 0 then
    (prev.type == "syntax" && curr.type != "syntax") ||
    (prev.type == "package" && curr.type != "package") ||
    (prev.type == "import" && curr.type != "import") ||
    (prev.type == "option" && curr.type != "option") ||
    (curr.type == "block" && prev.type != "comment") ||
    (curr.type == "comment" && prev.type != "comment" && prev.type != "syntax" &&
      prev.type != "package" && prev.type != "import" && prev.type != "option")
  else false

def indentCh (d : Nat) : Chars := List.replicate (2 * d) ' '

/-- `indent(curr.depth) + curr.text`. -/
def renderTok (t : FTok) : Chars := indentCh t.depth ++ t.text

def insertBlanksGo (prev : FTok) : List FTok → List Chars
  | [] => []
  | t :: ts =>
    (if shouldInsertBlankLine prev t then [[]] else []) ++
      (renderTok t :: insertBlanksGo t ts)

/-- The formatter's second pass: render each token at its indentation,
inserting blank lines per the adjacency policy. -/
def insertBlanks : List FTok → List Chars
  | [] => []
  | t :: ts => renderTok t :: insertBlanksGo t ts

/-- The trailing `while (... === "") result.pop()` loop. -/
def dropTrailingEmpties (ls : List Chars) : List Chars :=
  (ls.reverse.dropWhile (fun l => l.isEmpty)).reverse

/-- The formatter's first-pass token list for a whole input. -/
def formatTokens (content : String) : List FTok :=
  firstPass (preSplit (splitNl content.data)) 0 false

/-- `format(content)`: pre-split, first pass, second pass, trim trailing blank
lines, append one empty line, join with `\n`. -/
def format (content : String) : String :=
  ⟨joinNl (dropTrailingEmpties (insertBlanks (formatTokens content)) ++ [[]])⟩

/-- All issues of a report in order: errors, then warnings, then info. -/
def reportAll (r : ValidationResult) : List Issue := r.errors ++ r.warnings ++ r.info

/-- An unclosed-context issue, recognized by its message prefix (only the
end-of-input loop over the remaining brace stack produces such messages). -/
def isUnclosedIssue (i : Issue) : Bool := startsWith "Unclosed ".data i.message.data

/-- Boolean adjacency check: sorted non-decreasingly by `(line, column)`. -/
def sortedLC : List Issue → Bool
  | [] => true
  | [_] => true
  | a :: b :: t => !keyLtIssue b a && sortedLC (b :: t)

/-- Modelled from the spec: "input with balanced braces" — every closing brace
matches an earlier opening brace and every opened brace is closed. -/
def balancedGo : Int → Chars → Bool
  | d, [] => d == 0
  | d, c :: r =>
    if c == lbrace then balancedGo (d + 1) r
    else if c == rbrace then d > 0 && balancedGo (d - 1) r
    else balancedGo d r

/-- Modelled from the spec: balanced braces over the whole input string. -/
def bracesBalanced (content : String) : Bool := balancedGo 0 content.data

/-! ## Lemmas about the stable issue sort -/

theorem keyLt_iff {a b : Issue} :
    keyLtIssue a b = true ↔ a.line < b.line ∨ (a.line = b.line ∧ a.column < b.column) := by
  simp [keyLtIssue]

theorem keyLt_asymm {a b : Issue} (h : keyLtIssue a b = true) : keyLtIssue b a = false := by
  rw [keyLt_iff] at h
  rw [Bool.eq_false_iff]
  intro hc
  rw [keyLt_iff] at hc
  omega

theorem keyLe_trans {a b c : Issue} (h1 : keyLtIssue b a = false)
    (h2 : keyLtIssue c b = false) : keyLtIssue c a = false := by
  have n1 : ¬(b.line < a.line ∨ (b.line = a.line ∧ b.column < a.column)) := by
    intro hx; exact absurd (keyLt_iff.mpr hx) (by simp [h1])
  have n2 : ¬(c.line < b.line ∨ (c.line = b.line ∧ c.column < b.column)) := by
    intro hx; exact absurd (keyLt_iff.mpr hx) (by simp [h2])
  rw [Bool.eq_false_iff]
  intro hc
  rw [keyLt_iff] at hc
  omega

theorem insertSorted_perm (x : Issue) (l : List Issue) :
    List.Perm (insertSorted x l) (x :: l) := by
  induction l with
  | nil => exact List.Perm.refl _
  | cons y ys ih =>
    simp only [insertSorted]
    split
    · exact (ih.cons y).trans (List.Perm.swap x y ys)
    · exact List.Perm.refl _

theorem sortIssues_perm (l : List Issue) : List.Perm (sortIssues l) l := by
  induction l with
  | nil => exact List.Perm.refl _
  | cons x xs ih =>
    exact (insertSorted_perm x (sortIssues xs)).trans (ih.cons x)

theorem sortedLC_tail {y : Issue} {ys : List Issue} (h : sortedLC (y :: ys) = true) :
    sortedLC ys = true := by
  cases ys with
  | nil => rfl
  | cons z zs =>
    simp only [sortedLC, Bool.and_eq_true] at h
    exact h.2

theorem sortedLC_head {y z : Issue} {zs : List Issue}
    (h : sortedLC (y :: z :: zs) = true) : keyLtIssue z y = false := by
  simp only [sortedLC, Bool.and_eq_true, Bool.not_eq_true'] at h
  exact h.1

theorem sorted_head_le {y : Issue} {ys : List Issue} (h : sortedLC (y :: ys) = true) :
    ∀ z ∈ ys, keyLtIssue z y = false := by
  induction ys generalizing y with
  | nil => intro z hz; cases hz
  | cons w ws ih =>
    intro z hz
    cases hz with
    | head => exact sortedLC_head h
    | tail _ hmem =>
      exact keyLe_trans (sortedLC_head h) (ih (sortedLC_tail h) z hmem)

theorem insertSorted_front {x : Issue} {l : List Issue}
    (h : ∀ z ∈ l, keyLtIssue z x = false) : insertSorted x l = x :: l := by
  cases l with
  | nil => rfl
  | cons z zs =>
    simp only [insertSorted, h z (List.mem_cons_self z zs)]
    rfl

theorem sortedLC_insert (x : Issue) :
    ∀ l : List Issue, sortedLC l = true → sortedLC (insertSorted x l) = true := by
  intro l
  induction l with
  | nil => intro _; rfl
  | cons y ys ih =>
    intro h
    have hys := sortedLC_tail h
    simp only [insertSorted]
    split
    next hyx =>
      have hrec := ih hys
      cases hins : insertSorted x ys with
      | nil => rfl
      | cons w ws =>
        have hw : keyLtIssue w y = false := by
          cases ys with
          | nil =>
            simp only [insertSorted, List.cons.injEq] at hins
            rw [← hins.1]
            exact keyLt_asymm hyx
          | cons z zs =>
            simp only [insertSorted] at hins
            split at hins
            · rw [List.cons.injEq] at hins
              rw [← hins.1]
              exact sortedLC_head h
            · rw [List.cons.injEq] at hins
              rw [← hins.1]
              exact keyLt_asymm hyx
        rw [hins] at hrec
        simp only [sortedLC, Bool.and_eq_true, Bool.not_eq_true']
        exact ⟨hw, hrec⟩
    next hyx =>
      have hyx' : keyLtIssue y x = false := by
        rw [Bool.eq_false_iff]; exact hyx
      simp only [sortedLC, Bool.and_eq_true, Bool.not_eq_true']
      exact ⟨hyx', h⟩

theorem sortIssues_sorted (l : List Issue) : sortedLC (sortIssues l) = true := by
  induction l with
  | nil => rfl
  | cons x xs ih => exact sortedLC_insert x (sortIssues xs) ih

theorem filter_insertSorted (p : Issue → Bool) (x : Issue) (l : List Issue)
    (hsort : sortedLC l = true) :
    (insertSorted x l).filter p =
      if p x then insertSorted x (l.filter p) else l.filter p := by
  induction l with
  | nil =>
    by_cases hp : p x <;> simp [insertSorted, List.filter_cons, hp]
  | cons y ys ih =>
    have hys := sortedLC_tail hsort
    simp only [insertSorted]
    split
    next hlt =>
      rw [List.filter_cons, ih hys, List.filter_cons]
      by_cases hp : p x <;> by_cases hpy : p y <;>
        simp [hp, hpy, insertSorted, hlt]
    next hlt =>
      have hlt' : keyLtIssue y x = false := by rw [Bool.eq_false_iff]; exact hlt
      by_cases hp : p x
      · have hfront : ∀ z ∈ (y :: ys).filter p, keyLtIssue z x = false := by
          intro z hz
          have hmem := List.mem_of_mem_filter hz
          cases hmem with
          | head => exact hlt'
          | tail _ hmem2 =>
            exact keyLe_trans hlt' (sorted_head_le hsort z hmem2)
        rw [if_pos hp, insertSorted_front hfront]
        simp [List.filter_cons, hp]
      · rw [if_neg hp]
        simp [List.filter_cons, hp]

theorem filter_sortIssues (p : Issue → Bool) (l : List Issue) :
    (sortIssues l).filter p = sortIssues (l.filter p) := by
  induction l with
  | nil => rfl
  | cons x xs ih =>
    show (insertSorted x (sortIssues xs)).filter p = sortIssues ((x :: xs).filter p)
    rw [filter_insertSorted p x _ (sortIssues_sorted xs), ih, List.filter_cons]
    by_cases hp : p x <;> simp [hp, sortIssues]

theorem sortIssues_const_key {L C : Nat} :
    ∀ l : List Issue, (∀ i ∈ l, i.line = L ∧ i.column = C) → sortIssues l = l := by
  intro l
  induction l with
  | nil => intro _; rfl
  | cons x xs ih =>
    intro h
    have hxs : sortIssues xs = xs := ih (fun i hi => h i (List.mem_cons_of_mem x hi))
    show insertSorted x (sortIssues xs) = x :: xs
    rw [hxs]
    apply insertSorted_front
    intro z hz
    have hx := h x (List.mem_cons_self x xs)
    have hzk := h z (List.mem_cons_of_mem x hz)
    rw [Bool.eq_false_iff]
    intro hc
    rw [keyLt_iff] at hc
    omega

theorem filter_three_perm (l : List Issue) :
    List.Perm
      (l.filter (fun i => i.severity == Severity.error) ++
       l.filter (fun i => i.severity == Severity.warning) ++
       l.filter (fun i => i.severity == Severity.info)) l := by
  induction l with
  | nil => exact List.Perm.refl _
  | cons x xs ih =>
    cases hsev : x.severity with
    | error =>
      simp only [List.filter_cons, hsev, List.cons_append,
        show ((Severity.error == Severity.error) = true) from rfl,
        show ((Severity.error == Severity.warning) = false) from rfl,
        show ((Severity.error == Severity.info) = false) from rfl,
        if_true, if_false, Bool.false_eq_true]
      exact ih.cons x
    | warning =>
      simp only [List.filter_cons, hsev,
        show ((Severity.warning == Severity.error) = false) from rfl,
        show ((Severity.warning == Severity.warning) = true) from rfl,
        show ((Severity.warning == Severity.info) = false) from rfl,
        if_true, if_false, Bool.false_eq_true]
      refine List.Perm.trans ?_ (ih.cons x)
      have h1 := @List.perm_middle Issue x
        (xs.filter (fun i => i.severity == Severity.error))
        (xs.filter (fun i => i.severity == Severity.warning) ++
          xs.filter (fun i => i.severity == Severity.info))
      simpa [List.append_assoc] using h1
    | info =>
      simp only [List.filter_cons, hsev,
        show ((Severity.info == Severity.error) = false) from rfl,
        show ((Severity.info == Severity.warning) = false) from rfl,
        show ((Severity.info == Severity.info) = true) from rfl,
        if_true, if_false, Bool.false_eq_true]
      refine List.Perm.trans ?_ (ih.cons x)
      have h1 := @List.perm_middle Issue x
        (xs.filter (fun i => i.severity == Severity.error) ++
          xs.filter (fun i => i.severity == Severity.warning))
        (xs.filter (fun i => i.severity == Severity.info))
      simpa [List.append_assoc] using h1
theorem reportAll_validate_perm (s : String) :
    List.Perm (reportAll (validate s)) (collectIssues s) := by
  exact (filter_three_perm (sortIssues (collectIssues s))).trans
    (sortIssues_perm (collectIssues s))

theorem filter_all_self (p : Issue → Bool) (l : List Issue) :
    (l.filter p).all p = true := by
  induction l with
  | nil => rfl
  | cons x xs ih =>
    rw [List.filter_cons]
    by_cases hp : p x <;> simp [hp, ih]

theorem sortedLC_cons {y : Issue} {t : List Issue}
    (hall : ∀ z ∈ t, keyLtIssue z y = false) (ht : sortedLC t = true) :
    sortedLC (y :: t) = true := by
  cases t with
  | nil => rfl
  | cons w ws =>
    simp only [sortedLC, Bool.and_eq_true, Bool.not_eq_true']
    exact ⟨hall w (List.mem_cons_self w ws), ht⟩

theorem sortedLC_filter (p : Issue → Bool) :
    ∀ l : List Issue, sortedLC l = true → sortedLC (l.filter p) = true := by
  intro l
  induction l with
  | nil => intro _; rfl
  | cons y ys ih =>
    intro h
    rw [List.filter_cons]
    by_cases hp : p y
    · rw [if_pos hp]
      refine sortedLC_cons ?_ (ih (sortedLC_tail h))
      intro z hz
      exact sorted_head_le h z (List.mem_of_mem_filter hz)
    · rw [if_neg hp]
      exact ih (sortedLC_tail h)

/-- C1. For every input string, the `ValidationReport` returned by `validate`
has `valid = true` exactly when its `errors` sequence is empty; its
`errors`/`warnings`/`info` sequences carry exactly the severities `error`/
`warning`/`info` (disjointness), together they are a permutation of all issues
emitted by the two passes (exhaustiveness), each sequence is sorted
non-decreasingly by `(line, column)`, and within any fixed `(line, column)`
key each sequence lists the issues of its severity in original emission order
(stability of the sort). -/
theorem c1_validate_report_partition (s : String) :
    ((validate s).valid = true ↔ (validate s).errors = []) ∧
    (validate s).errors.all (fun i => i.severity == Severity.error) = true ∧
    (validate s).warnings.all (fun i => i.severity == Severity.warning) = true ∧
    (validate s).info.all (fun i => i.severity == Severity.info) = true ∧
    sortedLC (validate s).errors = true ∧
    sortedLC (validate s).warnings = true ∧
    sortedLC (validate s).info = true ∧
    List.Perm (reportAll (validate s)) (collectIssues s) ∧
    (∀ L C : Nat,
      (validate s).errors.filter (fun i => i.line == L && i.column == C) =
        (collectIssues s).filter
          (fun i => (i.line == L && i.column == C) && i.severity == Severity.error) ∧
      (validate s).warnings.filter (fun i => i.line == L && i.column == C) =
        (collectIssues s).filter
          (fun i => (i.line == L && i.column == C) && i.severity == Severity.warning) ∧
      (validate s).info.filter (fun i => i.line == L && i.column == C) =
        (collectIssues s).filter
          (fun i => (i.line == L && i.column == C) && i.severity == Severity.info)) := by
  have hstab : ∀ (sev : Severity) (L C : Nat),
      ((sortIssues (collectIssues s)).filter (fun i => i.severity == sev)).filter
          (fun i => i.line == L && i.column == C) =
        (collectIssues s).filter
          (fun i => (i.line == L && i.column == C) && i.severity == sev) := by
    intro sev L C
    rw [List.filter_filter, filter_sortIssues]
    apply sortIssues_const_key
    intro i hi
    have hp := List.of_mem_filter hi
    simp only [Bool.and_eq_true, beq_iff_eq] at hp
    exact ⟨hp.1.1, hp.1.2⟩
  refine ⟨?_, ?_, ?_, ?_, ?_, ?_, ?_, ?_, ?_⟩
  · have hv : (validate s).valid =
        (((sortIssues (collectIssues s)).filter
          (fun i => i.severity == Severity.error)).length == 0) := rfl
    have he : (validate s).errors =
        (sortIssues (collectIssues s)).filter
          (fun i => i.severity == Severity.error) := rfl
    rw [hv, he, beq_iff_eq, List.length_eq_zero]
  · exact filter_all_self _ _
  · exact filter_all_self _ _
  · exact filter_all_self _ _
  · exact sortedLC_filter _ _ (sortIssues_sorted _)
  · exact sortedLC_filter _ _ (sortIssues_sorted _)
  · exact sortedLC_filter _ _ (sortIssues_sorted _)
  · exact reportAll_validate_perm s
  · intro L C
    exact ⟨hstab Severity.error L C, hstab Severity.warning L C, hstab Severity.info L C⟩

/-- C2 (counterexample). `Format` is not idempotent: on
`"int32 a = 1 ; b ;"` the field normalization removes only the first
whitespace-before-semicolon per pass, so a second pass changes the output
again. -/
theorem c2_format_not_idempotent_cex :
    format (format "int32 a = 1 ; b ;") ≠ format "int32 a = 1 ; b ;" := by
  decide

/-- C2 (amended). `Format(Format(x)) == Format(x)` holds on the spec's own
formatting scenario input, on a representative well-formed file exercising the
brace-merge and blank-line rules, and on the counterexample input after one
extra pass (`Format` stabilizes there from the second application on). -/
theorem c2_format_idempotent_on_examples :
    format (format "message  Foo\x7b\nstring name=1;\n\x7d") =
      format "message  Foo\x7b\nstring name=1;\n\x7d" ∧
    format (format
        "syntax = \"proto3\";\npackage a.b;\nimport \"x.proto\";\nmessage Foo\n\x7b\n  int32 a=1;\n\x7d\n") =
      format
        "syntax = \"proto3\";\npackage a.b;\nimport \"x.proto\";\nmessage Foo\n\x7b\n  int32 a=1;\n\x7d\n" ∧
    format (format (format "int32 a = 1 ; b ;")) =
      format (format "int32 a = 1 ; b ;") := by
  refine ⟨by decide, by decide, by decide⟩

/-- C3. `Validate` and `Format` are total functions of the input string (the
shallow embedding is a terminating, exception-free definition), and on the
pathological inputs named by the claim — the empty string, input with no
trailing newline, comment-only input, binary data, deeply unbalanced braces —
they return the expected ordinary values. -/
theorem c3_total_no_throw :
    (∀ s : String, ∃ r : ValidationResult, validate s = r) ∧
    (∀ s : String, ∃ t : String, format s = t) ∧
    validate "" = ⟨false,
      [mkIssue 1 1 "syntax-declaration"
        "File should start with a syntax declaration (e.g., syntax = \"proto3\";)."
        Severity.error],
      [mkIssue 1 1 "package-declaration" "File should declare a package."
        Severity.warning], []⟩ ∧
    format "" = "" ∧
    (reportAll (validate "\x7b\n\x7b\n\x7b")).countP isUnclosedIssue = 3 ∧
    format "\x7b\n\x7b\n\x7b" = "\x7b\n  \x7b\n    \x7b\n" ∧
    (validate "// only comments\n").valid = false ∧
    format "// only comments\n" = "// only comments\n" ∧
    (reportAll (validate "\x00\x01")).countP (fun i => i.rule == "syntax-error") = 1 ∧
    (validate "no trailing newline").warnings.countP
      (fun i => i.rule == "trailing-newline") = 1 := by
  refine ⟨fun s => ⟨validate s, rfl⟩, fun s => ⟨format s, rfl⟩,
    by decide, by decide, by decide, by decide, by decide, by decide, by decide,
    by decide⟩

/-- C4 (counterexample). The blank-line insertion pass does insert a blank
line before a token at depth 1: after the close of a nested block, the
after-close rule applies at any depth, so `Format` introduces a blank line
inside the enclosing block body. -/
theorem c4_blank_inside_block_cex :
    ((formatTokens
        "message A \x7b\nmessage B \x7b\nint32 x = 1;\n\x7d\nint32 y = 2;\n\x7d\n").getD
        4 ⟨[], 0, ""⟩).depth > 0 ∧
    shouldInsertBlankLine
      ((formatTokens
          "message A \x7b\nmessage B \x7b\nint32 x = 1;\n\x7d\nint32 y = 2;\n\x7d\n").getD
          3 ⟨[], 0, ""⟩)
      ((formatTokens
          "message A \x7b\nmessage B \x7b\nint32 x = 1;\n\x7d\nint32 y = 2;\n\x7d\n").getD
          4 ⟨[], 0, ""⟩) = true ∧
    format "message A \x7b\nmessage B \x7b\nint32 x = 1;\n\x7d\nint32 y = 2;\n\x7d\n" =
      "message A \x7b\n  message B \x7b\n    int32 x = 1;\n  \x7d\n\n  int32 y = 2;\n\x7d\n" := by
  refine ⟨by decide, by decide, by decide⟩

/-- C4 (amended). When the upcoming token is at depth greater than 0, the
blank-line insertion pass inserts a blank line exactly when the previous token
is a `close` token and the current one is not (the after-close rule applies at
any depth); apart from that rule, no blank line is ever introduced inside a
block body. -/
theorem c4_blank_line_depth_pos_iff_close (prev curr : FTok) (h : curr.depth > 0) :
    shouldInsertBlankLine prev curr = (prev.type == "close" && curr.type != "close") := by
  unfold shouldInsertBlankLine
  have hc : (curr.depth == 0) = false := by
    simp only [beq_eq_false_iff_ne, ne_eq]
    omega
  split
  next hcl => rw [hcl]
  next hcl =>
    rw [hc, Bool.and_false, if_neg (by simp)]
    exact (Bool.eq_false_iff.mpr hcl).symm

/-- C4 (witness for the amended theorem), at the concrete token pair of the
counterexample run. -/
theorem c4_blank_line_depth_pos_witness :
    0 < (⟨"int32 y = 2;".data, 1, "field"⟩ : FTok).depth ∧
    shouldInsertBlankLine ⟨"\x7d".data, 1, "close"⟩ ⟨"int32 y = 2;".data, 1, "field"⟩ =
      ((⟨"\x7d".data, 1, "close"⟩ : FTok).type == "close" &&
        (⟨"int32 y = 2;".data, 1, "field"⟩ : FTok).type != "close") :=
  ⟨by decide,
   c4_blank_line_depth_pos_iff_close ⟨"\x7d".data, 1, "close"⟩
     ⟨"int32 y = 2;".data, 1, "field"⟩ (by decide)⟩

/-- C6 (counterexample). `Format` on the spec scenario input does not return
the claimed string: the normalization `\s+\{$ → " {"` only collapses existing
whitespace before the brace and never inserts a space into `Foo{`. -/
theorem c6_format_scenario_cex :
    format "message  Foo\x7b\nstring name=1;\n\x7d" ≠
      "message Foo \x7b\n  string name = 1;\n\x7d\n" := by
  decide

/-- C6 (amended). `Format` applied to `"message  Foo{\nstring name=1;\n}"`
returns `"message Foo{\n  string name = 1;\n}\n"` — identical to the claimed
output except that no space is inserted before the opening brace. -/
theorem c6_format_scenario_actual :
    format "message  Foo\x7b\nstring name=1;\n\x7d" =
      "message Foo\x7b\n  string name = 1;\n\x7d\n" := by
  decide

/-- C7 (counterexample). On `"message Foo string name = 1; }"` no issue of the
report mentions a missing opening brace: end of input is reached while the
scanner is still in expecting-body mode, and the missing-brace report is only
emitted when a later non-blank line fails to be a lone `{`. -/
theorem c7_no_missing_brace_cex :
    (reportAll (validate "message Foo string name = 1; \x7d")).all
      (fun i => !hasSub "missing opening brace".data i.message.data) = true := by
  decide

/-- C7 (amended). `"message Foo string name = 1; }"` produces at least one
`syntax-error` issue at line 1 — an unexpected closing brace and unexpected
content after the semicolon — but no missing-opening-brace report. -/
theorem c7_syntax_error_line1 :
    (reportAll (validate "message Foo string name = 1; \x7d")).any
      (fun i => i.rule == "syntax-error" && i.line == 1) = true ∧
    (reportAll (validate "message Foo string name = 1; \x7d")).countP
      (fun i => hasSub "Unexpected closing brace".data i.message.data) = 1 ∧
    (reportAll (validate "message Foo string name = 1; \x7d")).countP
      (fun i => hasSub "after semicolon".data i.message.data) = 1 := by
  refine ⟨by decide, by decide, by decide⟩

/-- C8. An enum whose first accumulated value is numbered 0 and named with an
`UNSPECIFIED` suffix never triggers `enum-first-value-unspecified` at block
close; a first value numbered 1 always does, attributed to the enum's opening
line.  End to end: `validate` on `enum E { E_UNSPECIFIED = 0; }` emits no such
issue, and with `= 1` it emits exactly one, at line 1, as an error. -/
theorem c8_enum_first_value_unspecified :
    (∀ (e : EnumAcc) (v : EnumVal) (rest : List EnumVal), e.values = v :: rest →
      ((v.number = 0 ∧ strEndsWith "UNSPECIFIED" v.name = true) →
        enumCloseIssues e = []) ∧
      (v.number = 1 →
        enumCloseIssues e =
          [mkIssue e.startLine 1 "enum-first-value-unspecified"
            ("Enum \"" ++ e.name ++
              "\" should have an UNSPECIFIED value as the first entry (= 0).")
            Severity.error])) ∧
    (reportAll (validate "enum E \x7b\n  E_UNSPECIFIED = 0;\n\x7d\n")).countP
      (fun i => i.rule == "enum-first-value-unspecified") = 0 ∧
    (reportAll (validate "enum E \x7b\n  E_UNSPECIFIED = 1;\n\x7d\n")).filter
      (fun i => i.rule == "enum-first-value-unspecified") =
      [mkIssue 1 1 "enum-first-value-unspecified"
        "Enum \"E\" should have an UNSPECIFIED value as the first entry (= 0)."
        Severity.error] := by
  refine ⟨?_, by decide, by decide⟩
  intro e v rest he
  constructor
  · intro ⟨h0, hu⟩
    simp [enumCloseIssues, he, h0, hu]
  · intro h1
    simp [enumCloseIssues, he, h1]

/-- C8 (witness): the accumulator-level statement applied at concrete enum
accumulators. -/
theorem c8_enum_first_value_witness :
    enumCloseIssues ⟨"E", 1, [⟨"E_UNSPECIFIED", 0, 2⟩]⟩ = [] ∧
    enumCloseIssues ⟨"E", 1, [⟨"E_UNSPECIFIED", 1, 2⟩]⟩ =
      [mkIssue 1 1 "enum-first-value-unspecified"
        ("Enum \"" ++ "E" ++
          "\" should have an UNSPECIFIED value as the first entry (= 0).")
        Severity.error] :=
  ⟨(c8_enum_first_value_unspecified.1 ⟨"E", 1, [⟨"E_UNSPECIFIED", 0, 2⟩]⟩
      ⟨"E_UNSPECIFIED", 0, 2⟩ [] rfl).1 ⟨rfl, by decide⟩,
   (c8_enum_first_value_unspecified.1 ⟨"E", 1, [⟨"E_UNSPECIFIED", 1, 2⟩]⟩
      ⟨"E_UNSPECIFIED", 1, 2⟩ [] rfl).2 rfl⟩

/-! ## Loop inductions: which rules and message shapes each pass can emit -/

theorem isPrefixOf_append_self : ∀ p r : Chars, p.isPrefixOf (p ++ r) = true := by
  intro p r
  induction p with
  | nil => simp [List.isPrefixOf]
  | cons c cs ih => simpa [List.isPrefixOf] using ih

/-- `isUnclosedIssue` only inspects the message, which here is a literal. -/
theorem notUnclosed_lit (l c : Nat) (r : String) (sev : Severity) (msg : String)
    (h : startsWith "Unclosed ".data msg.data = false) :
    isUnclosedIssue (mkIssue l c r msg sev) = false := h

/-- The rule of a built issue is its rule argument. -/
theorem ruleNe_lit (l c : Nat) (r msg : String) (sev : Severity)
    (h : r ≠ "trailing-newline") :
    (mkIssue l c r msg sev).rule ≠ "trailing-newline" := h

theorem isPrefixOf_append_false {p : Chars} :
    ∀ (a b : Chars), p.isPrefixOf a = false → a.isPrefixOf p = false →
      p.isPrefixOf (a ++ b) = false := by
  intro a
  induction a generalizing p with
  | nil =>
    intro b _ h2
    exact absurd h2 (by simp [List.isPrefixOf])
  | cons x xs ih =>
    intro b h1 h2
    cases p with
    | nil => exact absurd h1 (by simp [List.isPrefixOf])
    | cons q qs =>
      simp only [List.isPrefixOf, Bool.and_eq_false_iff] at h1 h2
      simp only [List.cons_append, List.isPrefixOf, Bool.and_eq_false_iff]
      rcases h1 with h1 | h1
      · exact Or.inl h1
      · rcases h2 with h2 | h2
        · left
          cases hqx : q == x
          · rfl
          · rw [beq_iff_eq] at hqx
            rw [hqx] at h2
            simp at h2
        · exact Or.inr (ih b h1 h2)

/-- A message that starts with a concrete prefix other than `"Unclosed "` is
not an unclosed-context message. -/
theorem notUnclosed_mk (l c : Nat) (r : String) (sev : Severity) (pre x : String)
    (h1 : ("Unclosed ".data).isPrefixOf pre.data = false)
    (h2 : (pre.data).isPrefixOf ("Unclosed ".data) = false) :
    isUnclosedIssue (mkIssue l c r (pre ++ x) sev) = false := by
  show startsWith "Unclosed ".data (pre ++ x).data = false
  rw [show (pre ++ x).data = pre.data ++ x.data from rfl]
  exact isPrefixOf_append_false pre.data x.data h1 h2

theorem blockMatch_ty {code : Chars} {ty : String} {n : Chars}
    (h : blockMatch code = some (ty, n)) :
    ty = "message" ∨ ty = "enum" ∨ ty = "service" ∨ ty = "oneof" := by
  unfold blockMatch at h
  split at h
  · simp only [Option.some.injEq, Prod.mk.injEq] at h
    exact Or.inl h.1.symm
  · split at h
    · simp only [Option.some.injEq, Prod.mk.injEq] at h
      exact Or.inr (Or.inl h.1.symm)
    · split at h
      · simp only [Option.some.injEq, Prod.mk.injEq] at h
        exact Or.inr (Or.inr (Or.inl h.1.symm))
      · split at h
        · simp only [Option.some.injEq, Prod.mk.injEq] at h
          exact Or.inr (Or.inr (Or.inr h.1.symm))
        · cases h

theorem popCloses_issues (ln : Nat) :
    ∀ (n : Nat) (stk : List Ctx), ∀ i ∈ (popCloses stk n ln).2,
      i.rule = "syntax-error" ∧ i.rule ≠ "trailing-newline" ∧
        isUnclosedIssue i = false := by
  intro n
  induction n with
  | zero => intro stk i hi; cases hi
  | succ m ih =>
    intro stk i hi
    unfold popCloses at hi
    split at hi
    · rcases List.mem_cons.mp hi with hh | ht
      · subst hh
        exact ⟨rfl, ruleNe_lit _ _ _ _ _ (by decide), notUnclosed_lit _ _ _ _ _ (by decide)⟩
      · exact ih stk i ht
    · exact ih stk.dropLast i hi

theorem enumCloseIssues_shape (e : EnumAcc) :
    ∀ i ∈ enumCloseIssues e,
      i.rule = "enum-first-value-unspecified" ∧ isUnclosedIssue i = false := by
  intro i hi
  unfold enumCloseIssues at hi
  split at hi
  · cases hi
  · split at hi
    · rcases List.mem_cons.mp hi with hh | ht
      · subst hh
        refine ⟨rfl, ?_⟩
        rw [String.append_assoc]
        exact notUnclosed_mk _ _ _ _ "Enum \"" _ (by decide) (by decide)
      · cases ht
    · cases hi

theorem fileStructureIssues_shape (fs : StyleState) :
    ∀ i ∈ fileStructureIssues fs,
      i.rule ≠ "trailing-newline" ∧ isUnclosedIssue i = false := by
  intro i hi
  unfold fileStructureIssues at hi
  rcases List.mem_append.mp hi with hi1 | hi2
  · rcases List.mem_append.mp hi1 with hi3 | hi4
    · split at hi3
      · rcases List.mem_cons.mp hi3 with hh | ht
        · subst hh
          exact ⟨ruleNe_lit _ _ _ _ _ (by decide), notUnclosed_lit _ _ _ _ _ (by decide)⟩
        · cases ht
      · cases hi3
    · split at hi4
      · rcases List.mem_cons.mp hi4 with hh | ht
        · subst hh
          exact ⟨ruleNe_lit _ _ _ _ _ (by decide), notUnclosed_lit _ _ _ _ _ (by decide)⟩
        · cases ht
      · cases hi4
  · split at hi2
    · rcases List.mem_cons.mp hi2 with hh | ht
      · subst hh
        exact ⟨ruleNe_lit _ _ _ _ _ (by decide), notUnclosed_lit _ _ _ _ _ (by decide)⟩
      · cases ht
    · cases hi2

theorem enumValAccum_issues (ce : EnumAcc) (ln : Nat) (trimmed : Chars) :
    ∀ i ∈ (enumValAccum ce ln trimmed).1,
      i.rule ≠ "trailing-newline" ∧ isUnclosedIssue i = false := by
  intro i hi
  unfold enumValAccum at hi
  split at hi
  · split at hi
    · rcases List.mem_cons.mp hi with hh | ht
      · subst hh
        refine ⟨ruleNe_lit _ _ _ _ _ (by decide), ?_⟩
        rw [String.append_assoc]
        exact notUnclosed_mk _ _ _ _ "Enum value \"" _ (by decide) (by decide)
      · cases ht
    · cases hi
  · cases hi

theorem enumValPart_issues (c0 : Option EnumAcc) (in0 : Bool)
    (eb : List EnumAcc) (ln : Nat) (trimmed : Chars) :
    ∀ i ∈ (enumValPart c0 in0 eb ln trimmed).1,
      i.rule ≠ "trailing-newline" ∧ isUnclosedIssue i = false := by
  intro i hi
  unfold enumValPart at hi
  split at hi
  · split at hi
    · split at hi
      · dsimp only at hi
        rcases List.mem_append.mp hi with hi1 | hi2
        · exact enumValAccum_issues _ _ _ i hi1
        · have h2 := enumCloseIssues_shape _ i hi2
          refine ⟨?_, h2.2⟩
          rw [h2.1]
          decide
      · exact enumValAccum_issues _ _ _ i hi
    · cases hi
  · cases hi

theorem maxLineIssue_shape (ln : Nat) (raw : Chars) :
    ∀ i ∈ maxLineIssue ln raw,
      i.rule ≠ "trailing-newline" ∧ isUnclosedIssue i = false := by
  intro i hi
  unfold maxLineIssue at hi
  split at hi
  · rcases List.mem_cons.mp hi with hh | ht
    · subst hh
      refine ⟨ruleNe_lit _ _ _ _ _ (by decide), ?_⟩
      rw [String.append_assoc]
      exact notUnclosed_mk _ _ _ _ "Line exceeds 80 characters (" _ (by decide) (by decide)
    · cases ht
  · cases hi

theorem msgNameIssue_shape (ln : Nat) (trimmed : Chars) :
    ∀ i ∈ msgNameIssue ln trimmed,
      i.rule ≠ "trailing-newline" ∧ isUnclosedIssue i = false := by
  intro i hi
  unfold msgNameIssue at hi
  split at hi
  · split at hi
    · rcases List.mem_cons.mp hi with hh | ht
      · subst hh
        refine ⟨ruleNe_lit _ _ _ _ _ (by decide), ?_⟩
        rw [String.append_assoc]
        exact notUnclosed_mk _ _ _ _ "Message name \"" _ (by decide) (by decide)
      · cases ht
    · cases hi
  · cases hi

theorem enumNameIssue_shape (ln : Nat) (eo : Option Chars) :
    ∀ i ∈ enumNameIssue ln eo,
      i.rule ≠ "trailing-newline" ∧ isUnclosedIssue i = false := by
  intro i hi
  unfold enumNameIssue at hi
  split at hi
  · split at hi
    · rcases List.mem_cons.mp hi with hh | ht
      · subst hh
        refine ⟨ruleNe_lit _ _ _ _ _ (by decide), ?_⟩
        rw [String.append_assoc]
        exact notUnclosed_mk _ _ _ _ "Enum name \"" _ (by decide) (by decide)
      · cases ht
    · cases hi
  · cases hi

theorem fieldNameIssue_shape (ln : Nat) (trimmed : Chars) (ie : Bool) :
    ∀ i ∈ fieldNameIssue ln trimmed ie,
      i.rule ≠ "trailing-newline" ∧ isUnclosedIssue i = false := by
  intro i hi
  unfold fieldNameIssue at hi
  split at hi
  · split at hi
    · split at hi
      · rcases List.mem_cons.mp hi with hh | ht
        · subst hh
          refine ⟨ruleNe_lit _ _ _ _ _ (by decide), ?_⟩
          rw [String.append_assoc]
          exact notUnclosed_mk _ _ _ _ "Field name \"" _ (by decide) (by decide)
        · cases ht
      · cases hi
    · cases hi
  · cases hi

theorem serviceCommentIssue_shape (ln : Nat) (sv pc : Bool) :
    ∀ i ∈ serviceCommentIssue ln sv pc,
      i.rule ≠ "trailing-newline" ∧ isUnclosedIssue i = false := by
  intro i hi
  unfold serviceCommentIssue at hi
  split at hi
  · rcases List.mem_cons.mp hi with hh | ht
    · subst hh
      exact ⟨ruleNe_lit _ _ _ _ _ (by decide), notUnclosed_lit _ _ _ _ _ (by decide)⟩
    · cases ht
  · cases hi

theorem rpcCommentIssue_shape (ln : Nat) (trimmed : Chars) (sv pc : Bool) :
    ∀ i ∈ rpcCommentIssue ln trimmed sv pc,
      i.rule ≠ "trailing-newline" ∧ isUnclosedIssue i = false := by
  intro i hi
  unfold rpcCommentIssue at hi
  split at hi
  · rcases List.mem_cons.mp hi with hh | ht
    · subst hh
      exact ⟨ruleNe_lit _ _ _ _ _ (by decide), notUnclosed_lit _ _ _ _ _ (by decide)⟩
    · cases ht
  · cases hi

theorem styleStep_issues (st : StyleState) (n : Nat) (raw : Chars) :
    ∀ i ∈ (styleStep st n raw).issues,
      i ∈ st.issues ∨ (i.rule ≠ "trailing-newline" ∧ isUnclosedIssue i = false) := by
  intro i hi
  unfold styleStep at hi
  simp only [List.mem_append] at hi
  rcases hi with ((((((hi | hi) | hi) | hi) | hi) | hi) | hi) | hi
  · exact Or.inl hi
  · exact Or.inr (maxLineIssue_shape _ _ i hi)
  · exact Or.inr (msgNameIssue_shape _ _ i hi)
  · exact Or.inr (enumNameIssue_shape _ _ i hi)
  · exact Or.inr (enumValPart_issues _ _ _ _ _ i hi)
  · exact Or.inr (fieldNameIssue_shape _ _ _ i hi)
  · exact Or.inr (serviceCommentIssue_shape _ _ _ i hi)
  · exact Or.inr (rpcCommentIssue_shape _ _ _ _ i hi)

theorem startsWith_append_self (a b : String) :
    startsWith a.data (a ++ b).data = true :=
  isPrefixOf_append_self a.data b.data

theorem mkUnclosedIssue_isUnclosed (c : Ctx) :
    isUnclosedIssue (mkUnclosedIssue c) = true := by
  have h : mkUnclosedIssue c = mkIssue c.line 1 "syntax-error"
      ("Unclosed " ++ (c.type ++ (" \"" ++ (c.name ++
        ("\" — missing closing brace \"" ++ ("\x7d" ++ "\".")))))) .error := by
    unfold mkUnclosedIssue
    rw [String.append_assoc, String.append_assoc, String.append_assoc,
      String.append_assoc, String.append_assoc]
  rw [h]
  exact startsWith_append_self "Unclosed " _

theorem fieldDeclIssue_shape (ln : Nat) (cc : String) (code : Chars) :
    ∀ i ∈ fieldDeclIssue ln cc code,
      i.rule = "syntax-error" ∧ isUnclosedIssue i = false := by
  intro i hi
  unfold fieldDeclIssue at hi
  split at hi
  · split at hi
    · split at hi
      · split at hi <;>
        · rcases List.mem_cons.mp hi with hh | ht
          · subst hh
            exact ⟨rfl, notUnclosed_lit _ _ _ _ _ (by decide)⟩
          · cases ht
      · cases hi
    · cases hi
  · cases hi

theorem enumDeclIssue_shape (ln : Nat) (cc : String) (code : Chars) :
    ∀ i ∈ enumDeclIssue ln cc code,
      i.rule = "syntax-error" ∧ isUnclosedIssue i = false := by
  intro i hi
  unfold enumDeclIssue at hi
  split at hi
  · split at hi
    · split at hi
      · split at hi <;>
        · rcases List.mem_cons.mp hi with hh | ht
          · subst hh
            exact ⟨rfl, notUnclosed_lit _ _ _ _ _ (by decide)⟩
          · cases ht
      · cases hi
    · cases hi
  · cases hi

theorem rpcDeclIssue_shape (ln : Nat) (cc : String) (code : Chars) :
    ∀ i ∈ rpcDeclIssue ln cc code,
      i.rule = "syntax-error" ∧ isUnclosedIssue i = false := by
  intro i hi
  unfold rpcDeclIssue at hi
  split at hi
  · rcases List.mem_cons.mp hi with hh | ht
    · subst hh
      exact ⟨rfl, notUnclosed_lit _ _ _ _ _ (by decide)⟩
    · cases ht
  · cases hi

theorem syntaxValIssue_shape (ln : Nat) (code : Chars) :
    ∀ i ∈ syntaxValIssue ln code,
      i.rule = "syntax-error" ∧ isUnclosedIssue i = false := by
  intro i hi
  unfold syntaxValIssue at hi
  split at hi
  · split at hi
    · cases hi
    · rcases List.mem_cons.mp hi with hh | ht
      · subst hh
        refine ⟨rfl, ?_⟩
        rw [String.append_assoc]
        exact notUnclosed_mk _ _ _ _ "Invalid syntax value \"" _ (by decide) (by decide)
      · cases ht
  · cases hi

theorem junkIssue_shape (ln : Nat) (code : Chars) :
    ∀ i ∈ junkIssue ln code,
      i.rule = "syntax-error" ∧ isUnclosedIssue i = false := by
  intro i hi
  unfold junkIssue at hi
  split at hi
  · split at hi
    · split at hi
      · rcases List.mem_cons.mp hi with hh | ht
        · subst hh
          refine ⟨rfl, ?_⟩
          rw [String.append_assoc]
          exact notUnclosed_mk _ _ _ _ "Unexpected content \"" _ (by decide) (by decide)
        · cases ht
      · cases hi
    · cases hi
  · cases hi

theorem unrecognizedIssue_shape (ln : Nat) (cc : String) (e1 : Bool) (code : Chars) :
    ∀ i ∈ unrecognizedIssue ln cc e1 code,
      i.rule = "syntax-error" ∧ isUnclosedIssue i = false := by
  intro i hi
  unfold unrecognizedIssue at hi
  split at hi
  · split at hi
    · cases hi
    · rcases List.mem_cons.mp hi with hh | ht
      · subst hh
        refine ⟨rfl, ?_⟩
        rw [String.append_assoc, String.append_assoc]
        exact notUnclosed_mk _ _ _ _ "Unrecognized statement: \"" _ (by decide) (by decide)
      · cases ht
  · cases hi

theorem semiIssue_shape (ln : Nat) (code : Chars) :
    ∀ i ∈ semiIssue ln code,
      i.rule = "syntax-error" ∧ isUnclosedIssue i = false := by
  intro i hi
  unfold semiIssue at hi
  split at hi
  · rcases List.mem_cons.mp hi with hh | ht
    · subst hh
      exact ⟨rfl, notUnclosed_lit _ _ _ _ _ (by decide)⟩
    · cases ht
  · cases hi

theorem blockOpenPart_shape (stack : List Ctx) (expB : Bool) (expT expN : String)
    (expL : Nat) (bm : Option (String × Chars)) (code : Chars) (ln : Nat)
    (hbm : ∀ ty nm, bm = some (ty, nm) →
      ty = "message" ∨ ty = "enum" ∨ ty = "service" ∨ ty = "oneof")
    (hET : expT = "" ∨ expT = "message" ∨ expT = "enum" ∨ expT = "service" ∨
      expT = "oneof") :
    (∀ i ∈ (blockOpenPart stack expB expT expN expL bm code ln).1,
      i.rule = "syntax-error" ∧ isUnclosedIssue i = false) ∧
    ((blockOpenPart stack expB expT expN expL bm code ln).2.2.2.1 = "" ∨
     (blockOpenPart stack expB expT expN expL bm code ln).2.2.2.1 = "message" ∨
     (blockOpenPart stack expB expT expN expL bm code ln).2.2.2.1 = "enum" ∨
     (blockOpenPart stack expB expT expN expL bm code ln).2.2.2.1 = "service" ∨
     (blockOpenPart stack expB expT expN expL bm code ln).2.2.2.1 = "oneof") := by
  cases bm with
  | some p =>
    obtain ⟨ty, nameChars⟩ := p
    have hty := hbm ty nameChars rfl
    constructor
    · intro i hi
      simp only [blockOpenPart] at hi
      split at hi <;> split at hi
      case isTrue.isFalse => cases hi
      case isFalse.isFalse => cases hi
      all_goals
        rcases List.mem_cons.mp hi with hh | ht
        · subst hh
          refine ⟨rfl, ?_⟩
          rcases hty with h | h | h | h <;> subst h
          · exact notUnclosed_mk _ _ _ _ "message" _ (by decide) (by decide)
          · exact notUnclosed_mk _ _ _ _ "enum" _ (by decide) (by decide)
          · exact notUnclosed_mk _ _ _ _ "service" _ (by decide) (by decide)
          · exact notUnclosed_mk _ _ _ _ "oneof" _ (by decide) (by decide)
        · cases ht
    · simp only [blockOpenPart]
      split
      · exact hET
      · rcases hty with h | h | h | h <;> subst h <;> simp
  | none =>
    constructor
    · intro i hi
      simp only [blockOpenPart] at hi
      split at hi
      · split at hi
        · cases hi
        · rcases List.mem_cons.mp hi with hh | ht
          · subst hh
            refine ⟨rfl, ?_⟩
            rcases hET with h | h | h | h | h <;> subst h
            · rw [show (("" : String) ++ " \"") = " \"" from rfl,
                String.append_assoc, String.append_assoc, String.append_assoc]
              exact notUnclosed_mk _ _ _ _ " \"" _ (by decide) (by decide)
            · rw [String.append_assoc, String.append_assoc, String.append_assoc,
                String.append_assoc]
              exact notUnclosed_mk _ _ _ _ "message" _ (by decide) (by decide)
            · rw [String.append_assoc, String.append_assoc, String.append_assoc,
                String.append_assoc]
              exact notUnclosed_mk _ _ _ _ "enum" _ (by decide) (by decide)
            · rw [String.append_assoc, String.append_assoc, String.append_assoc,
                String.append_assoc]
              exact notUnclosed_mk _ _ _ _ "service" _ (by decide) (by decide)
            · rw [String.append_assoc, String.append_assoc, String.append_assoc,
                String.append_assoc]
              exact notUnclosed_mk _ _ _ _ "oneof" _ (by decide) (by decide)
          · cases ht
      · cases hi
    · simp only [blockOpenPart]
      split <;> first
        | (split <;> exact hET)
        | exact hET

theorem importOrderIssues_shape :
    ∀ (seen : Bool) (l : List ImportRec), ∀ i ∈ importOrderIssues seen l,
      i.rule ≠ "trailing-newline" ∧ isUnclosedIssue i = false := by
  intro seen l
  induction l generalizing seen with
  | nil => intro i hi; cases hi
  | cons imp rest ih =>
    intro i hi
    unfold importOrderIssues at hi
    rcases List.mem_append.mp hi with hi1 | hi2
    · split at hi1
      · rcases List.mem_cons.mp hi1 with hh | ht
        · subst hh
          exact ⟨ruleNe_lit _ _ _ _ _ (by decide), notUnclosed_lit _ _ _ _ _ (by decide)⟩
        · cases ht
      · cases hi1
    · exact ih _ i hi2

theorem synStep_issues (st : SynState) (n : Nat) (raw : Chars)
    (hET : st.expectingType = "" ∨ st.expectingType = "message" ∨
      st.expectingType = "enum" ∨ st.expectingType = "service" ∨
      st.expectingType = "oneof") :
    (∀ i ∈ (synStep st n raw).issues,
      i ∈ st.issues ∨ (i.rule = "syntax-error" ∧ isUnclosedIssue i = false)) ∧
    ((synStep st n raw).expectingType = "" ∨
     (synStep st n raw).expectingType = "message" ∨
     (synStep st n raw).expectingType = "enum" ∨
     (synStep st n raw).expectingType = "service" ∨
     (synStep st n raw).expectingType = "oneof") := by
  constructor
  · intro i hi
    simp only [synStep] at hi
    split at hi
    · exact Or.inl hi
    · split at hi
      · exact Or.inl hi
      · simp only [List.mem_append] at hi
        rcases hi with ((((((((hi | hi) | hi) | hi) | hi) | hi) | hi) | hi) | hi) | hi
        · exact Or.inl hi
        · exact Or.inr (fieldDeclIssue_shape _ _ _ i hi)
        · exact Or.inr (enumDeclIssue_shape _ _ _ i hi)
        · exact Or.inr
            ((blockOpenPart_shape st.stack st.expectingBody st.expectingType
              st.expectingName st.expectingLine _ _ n
              (fun _ _ h => blockMatch_ty h) hET).1 i hi)
        · have h3 := popCloses_issues n _ _ i hi
          exact Or.inr ⟨h3.1, h3.2.2⟩
        · exact Or.inr (rpcDeclIssue_shape _ _ _ i hi)
        · exact Or.inr (syntaxValIssue_shape _ _ i hi)
        · exact Or.inr (junkIssue_shape _ _ i hi)
        · exact Or.inr (unrecognizedIssue_shape _ _ _ _ i hi)
        · exact Or.inr (semiIssue_shape _ _ i hi)
  · simp only [synStep]
    split
    · exact hET
    · split
      · exact hET
      · exact (blockOpenPart_shape st.stack st.expectingBody st.expectingType
          st.expectingName st.expectingLine _ _ n
          (fun _ _ h => blockMatch_ty h) hET).2

theorem synLoop_issues :
    ∀ (lines : List Chars) (st : SynState) (n : Nat),
      (st.expectingType = "" ∨ st.expectingType = "message" ∨
        st.expectingType = "enum" ∨ st.expectingType = "service" ∨
        st.expectingType = "oneof") →
      (∀ i ∈ st.issues, i.rule = "syntax-error" ∧ isUnclosedIssue i = false) →
      ∀ i ∈ (synLoop st n lines).issues,
        i.rule = "syntax-error" ∧ isUnclosedIssue i = false := by
  intro lines
  induction lines with
  | nil => intro st n _ h i hi; exact h i hi
  | cons l ls ih =>
    intro st n hET h i hi
    have hstep := synStep_issues st n l hET
    refine ih _ _ hstep.2 ?_ i hi
    intro j hj
    rcases hstep.1 j hj with hin | hnew
    · exact h j hin
    · exact hnew

theorem synScan_issues (lines : List Chars) :
    ∀ i ∈ (synScan lines).issues,
      i.rule = "syntax-error" ∧ isUnclosedIssue i = false :=
  synLoop_issues lines synInit 1 (Or.inl rfl)
    (fun i hi => absurd hi (List.not_mem_nil i))

theorem styleLoop_issues :
    ∀ (lines : List Chars) (st : StyleState) (n : Nat),
      (∀ i ∈ st.issues, i.rule ≠ "trailing-newline" ∧ isUnclosedIssue i = false) →
      ∀ i ∈ (styleLoop st n lines).issues,
        i.rule ≠ "trailing-newline" ∧ isUnclosedIssue i = false := by
  intro lines
  induction lines with
  | nil => intro st n h i hi; exact h i hi
  | cons l ls ih =>
    intro st n h i hi
    refine ih _ _ ?_ i hi
    intro j hj
    rcases styleStep_issues st n l j hj with hin | hnew
    · exact h j hin
    · exact hnew

theorem styleScan_issues (lines : List Chars) :
    ∀ i ∈ (styleScan lines).issues,
      i.rule ≠ "trailing-newline" ∧ isUnclosedIssue i = false :=
  styleLoop_issues lines styleInit 1 (fun i hi => absurd hi (List.not_mem_nil i))

theorem validateSyntax_unclosed_filter (lines : List Chars) :
    (validateSyntaxIssues lines).filter isUnclosedIssue =
      (synScan lines).stack.map mkUnclosedIssue := by
  unfold validateSyntaxIssues
  rw [List.filter_append]
  have h1 : (synScan lines).issues.filter isUnclosedIssue = [] := by
    rw [List.filter_eq_nil_iff]
    intro a ha
    rw [(synScan_issues lines a ha).2]
    simp
  have h2 : ((synScan lines).stack.map mkUnclosedIssue).filter isUnclosedIssue =
      (synScan lines).stack.map mkUnclosedIssue := by
    rw [List.filter_eq_self]
    intro a ha
    rcases List.mem_map.mp ha with ⟨c, _, hc⟩
    rw [← hc]
    exact mkUnclosedIssue_isUnclosed c
  rw [h1, h2, List.nil_append]

theorem collect_countP_unclosed (s : String) :
    (collectIssues s).countP isUnclosedIssue =
      (synScan (splitNl s.data)).stack.length := by
  unfold collectIssues
  simp only [List.countP_append]
  have htn : ∀ b : Bool,
      (if b then
        [mkIssue (splitNl s.data).length 1 "trailing-newline"
          "File should end with a trailing newline." Severity.warning]
       else []).countP isUnclosedIssue = 0 := by
    intro b
    cases b
    · rfl
    · simp only [if_true]
      rw [List.countP_eq_zero]
      intro a ha
      rcases List.mem_cons.mp ha with hh | ht
      · subst hh
        rw [notUnclosed_lit _ _ _ _ _ (by decide)]
        simp
      · cases ht
  rw [htn]
  have hstyle : (styleScan (splitNl s.data)).issues.countP isUnclosedIssue = 0 := by
    rw [List.countP_eq_zero]
    intro a ha
    rw [(styleScan_issues _ a ha).2]
    simp
  have hfs : (fileStructureIssues (styleScan (splitNl s.data))).countP
      isUnclosedIssue = 0 := by
    rw [List.countP_eq_zero]
    intro a ha
    rw [(fileStructureIssues_shape _ a ha).2]
    simp
  have himp : (importOrderIssues false
      (styleScan (splitNl s.data)).importLines).countP isUnclosedIssue = 0 := by
    rw [List.countP_eq_zero]
    intro a ha
    rw [(importOrderIssues_shape _ _ a ha).2]
    simp
  have hsyn : (validateSyntaxIssues (splitNl s.data)).countP isUnclosedIssue =
      (synScan (splitNl s.data)).stack.length := by
    rw [List.countP_eq_length_filter, validateSyntax_unclosed_filter,
      List.length_map]
  rw [hstyle, hfs, himp, hsyn]
  omega

/-- C5 (counterexample). `"message Foo\n{\n}"` has balanced braces, yet
`validate` reports one unclosed context: the scanner pushes both the named
context and an anonymous block for the same lone `{` line. -/
theorem c5_balanced_unclosed_cex :
    bracesBalanced "message Foo\n\x7b\n\x7d" = true ∧
    (reportAll (validate "message Foo\n\x7b\n\x7d")).countP isUnclosedIssue ≠ 0 := by
  refine ⟨by decide, by decide⟩

/-- C5 (amended). For every input, the unclosed-context issues of the syntax
pass are exactly one per context remaining on the brace stack after the scan,
in stack order, each attributed to its context's opening line; the full
report's count of unclosed-context issues equals that stack's length.
Balanced braces do not guarantee a zero count (see the counterexample): a
block opener whose `{` sits alone on the next line pushes two contexts for
one brace. -/
theorem c5_unclosed_count (s : String) :
    (validateSyntaxIssues (splitNl s.data)).filter isUnclosedIssue =
      (synScan (splitNl s.data)).stack.map mkUnclosedIssue ∧
    (reportAll (validate s)).countP isUnclosedIssue =
      (synScan (splitNl s.data)).stack.length ∧
    (∀ c ∈ (synScan (splitNl s.data)).stack, (mkUnclosedIssue c).line = c.line) := by
  refine ⟨validateSyntax_unclosed_filter _, ?_, fun c _ => rfl⟩
  rw [(reportAll_validate_perm s).countP_eq]
  exact collect_countP_unclosed s

theorem validateSyntaxIssues_rule (lines : List Chars) :
    ∀ i ∈ validateSyntaxIssues lines, i.rule = "syntax-error" := by
  intro i hi
  unfold validateSyntaxIssues at hi
  rcases List.mem_append.mp hi with h1 | h2
  · exact (synScan_issues lines i h1).1
  · rcases List.mem_map.mp h2 with ⟨c, _, hc⟩
    rw [← hc]
    rfl

theorem collect_countP_tn (s : String) (p : Issue → Bool)
    (hne : ∀ i, i.rule ≠ "trailing-newline" → p i = false)
    (hyes : p (mkIssue (splitNl s.data).length 1 "trailing-newline"
      "File should end with a trailing newline." Severity.warning) = true) :
    (collectIssues s).countP p =
      (if s.data.length > 0 && !endsWith "\n".data s.data then 1 else 0) := by
  unfold collectIssues
  simp only [List.countP_append]
  have hz : ∀ a : Issue, a.rule ≠ "trailing-newline" → ¬p a = true := by
    intro a ha hpa
    rw [hne a ha] at hpa
    cases hpa
  have hstyle : (styleScan (splitNl s.data)).issues.countP p = 0 :=
    List.countP_eq_zero.mpr fun a ha => hz a (styleScan_issues _ a ha).1
  have hfs : (fileStructureIssues (styleScan (splitNl s.data))).countP p = 0 :=
    List.countP_eq_zero.mpr fun a ha => hz a (fileStructureIssues_shape _ a ha).1
  have himp : (importOrderIssues false
      (styleScan (splitNl s.data)).importLines).countP p = 0 :=
    List.countP_eq_zero.mpr fun a ha =>
      hz a (importOrderIssues_shape _ _ a ha).1
  have hsyn : (validateSyntaxIssues (splitNl s.data)).countP p = 0 :=
    List.countP_eq_zero.mpr fun a ha =>
      hz a (by rw [validateSyntaxIssues_rule _ a ha]; decide)
  rw [hstyle, hfs, himp, hsyn]
  split
  · simp [List.countP_cons, hyes]
  · rfl

/-- C9 (counterexample). The empty string does not end with a newline
character, yet `validate ""` reports no trailing-newline warning: the check
additionally requires the content to be nonempty. -/
theorem c9_empty_no_tn_cex :
    endsWith "\n".data ("" : String).data = false ∧
    (reportAll (validate "")).countP (fun i => i.rule == "trailing-newline") = 0 := by
  refine ⟨by decide, by decide⟩

/-- C9 (amended). `validate` reports exactly one trailing-newline issue — a
warning — exactly when the input is nonempty and does not end with a newline
character (for the empty string no warning is emitted); and the 92-character
line with no trailing newline yields exactly one trailing-newline warning and
exactly one max-line-length warning, at column 81. -/
theorem c9_trailing_newline_count :
    (∀ s : String,
      (reportAll (validate s)).countP (fun i => i.rule == "trailing-newline") =
        (if s.data.length > 0 && !endsWith "\n".data s.data then 1 else 0) ∧
      (reportAll (validate s)).countP
          (fun i => i.rule == "trailing-newline" &&
            i.severity == Severity.warning) =
        (if s.data.length > 0 && !endsWith "\n".data s.data then 1 else 0)) ∧
    (reportAll (validate (String.mk (List.replicate 92 'a')))).countP
      (fun i => i.rule == "trailing-newline") = 1 ∧
    (reportAll (validate (String.mk (List.replicate 92 'a')))).countP
      (fun i => i.rule == "max-line-length") = 1 ∧
    (reportAll (validate (String.mk (List.replicate 92 'a')))).filter
      (fun i => i.rule == "max-line-length") =
      [mkIssue 1 81 "max-line-length" "Line exceeds 80 characters (92)."
        Severity.warning] := by
  refine ⟨?_, by decide, by decide, by decide⟩
  intro s
  constructor
  · rw [(reportAll_validate_perm s).countP_eq]
    refine collect_countP_tn s _ ?_ rfl
    intro i hi
    simp [hi]
  · rw [(reportAll_validate_perm s).countP_eq]
    refine collect_countP_tn s _ ?_ rfl
    intro i hi
    simp [hi]

/-! ## The formatter's output shape: trimming, blank lines, final newline -/

theorem all_of_dropWhile_all {l : Chars}
    (h : (l.dropWhile isWs).all isWs = true) : l.all isWs = true := by
  rw [← List.takeWhile_append_dropWhile (p := isWs) (l := l), List.all_append,
    Bool.and_eq_true]
  refine ⟨?_, h⟩
  rw [List.all_eq_true]
  exact fun x hx => List.mem_takeWhile_imp hx

theorem dropWhile_all_of_all {l : Chars} (h : l.all isWs = true) :
    (l.dropWhile isWs).all isWs = true := by
  rw [List.all_eq_true] at h ⊢
  exact fun x hx => h x (List.dropWhile_sublist isWs |>.subset hx)

theorem all_isWs_reverse (l : Chars) :
    (l.reverse.all isWs = true) ↔ (l.all isWs = true) := by
  rw [List.all_eq_true, List.all_eq_true]
  constructor <;> intro h x hx
  · exact h x (List.mem_reverse.mpr hx)
  · exact h x (List.mem_reverse.mp hx)

theorem trimR_all_iff (l : Chars) :
    ((trimR l).all isWs = true) ↔ (l.all isWs = true) := by
  unfold trimR
  rw [all_isWs_reverse]
  constructor
  · intro h
    rw [← all_isWs_reverse]
    exact all_of_dropWhile_all h
  · intro h
    exact dropWhile_all_of_all ((all_isWs_reverse l).mpr h)

theorem trimB_eq_nil_iff (l : Chars) : trimB l = [] ↔ l.all isWs = true := by
  unfold trimB trimL
  rw [List.dropWhile_eq_nil_iff]
  rw [← trimR_all_iff l, List.all_eq_true]

theorem trimB_trimR_eq_nil_iff (l : Chars) :
    trimB (trimR l) = [] ↔ l.all isWs = true := by
  rw [trimB_eq_nil_iff, trimR_all_iff]

theorem splitNl_cons_eq (c : Char) (r : Chars) (h0 : Chars) (t : List Chars)
    (hsr : splitNl r = h0 :: t) :
    splitNl (c :: r) = if c == '\n' then [] :: h0 :: t else (c :: h0) :: t := by
  simp only [splitNl, hsr]

theorem splitNl_ne_nil (cs : Chars) : splitNl cs ≠ [] := by
  induction cs with
  | nil => simp [splitNl]
  | cons c r ih =>
    simp only [splitNl]
    split
    · simp
    · split <;> simp

theorem splitNl_all_ws :
    ∀ cs : Chars, cs.all isWs = true → ∀ l ∈ splitNl cs, l.all isWs = true := by
  intro cs
  induction cs with
  | nil =>
    intro _ l hl
    simp only [splitNl, List.mem_singleton] at hl
    subst hl
    rfl
  | cons c r ih =>
    intro h l hl
    rw [List.all_cons, Bool.and_eq_true] at h
    cases hsr : splitNl r with
    | nil => exact absurd hsr (splitNl_ne_nil r)
    | cons h0 t =>
      rw [splitNl_cons_eq c r h0 t hsr] at hl
      split at hl
      · rcases List.mem_cons.mp hl with hh | hmem
        · subst hh; rfl
        · exact ih h.2 l (hsr ▸ hmem)
      · rcases List.mem_cons.mp hl with hh | hmem
        · subst hh
          rw [List.all_cons, h.1, Bool.true_and]
          exact ih h.2 h0 (hsr ▸ List.mem_cons_self h0 t)
        · exact ih h.2 l (hsr ▸ List.mem_cons_of_mem h0 hmem)

theorem splitNl_ex_nonws :
    ∀ cs : Chars, cs.all isWs = false → ∃ l ∈ splitNl cs, l.all isWs = false := by
  intro cs
  induction cs with
  | nil => intro h; cases h
  | cons c r ih =>
    intro h
    rw [List.all_cons, Bool.and_eq_false_iff] at h
    cases hsr : splitNl r with
    | nil => exact absurd hsr (splitNl_ne_nil r)
    | cons h0 t =>
      rcases h with hc | hr
      · have hcn : (c == '\n') = false := by
          cases hcc : c == '\n'
          · rfl
          · rw [beq_iff_eq] at hcc
            subst hcc
            cases hc
        refine ⟨c :: h0, ?_, ?_⟩
        · simp only [splitNl, hsr, hcn]
          exact List.mem_cons_self _ _
        · rw [List.all_cons, hc, Bool.false_and]
      · rcases ih hr with ⟨l, hl, hlf⟩
        rw [hsr] at hl
        rcases List.mem_cons.mp hl with hh | hmem
        · rw [hh] at hlf
          by_cases hcn : (c == '\n') = true
          · refine ⟨h0, ?_, hlf⟩
            simp only [splitNl, hsr, hcn, if_true]
            exact List.mem_cons_of_mem _ (List.mem_cons_self _ _)
          · have hcn' : (c == '\n') = false := by
              rw [Bool.eq_false_iff]
              exact hcn
            refine ⟨c :: h0, ?_, ?_⟩
            · simp [splitNl, hsr, hcn']
            · rw [List.all_cons, hlf, Bool.and_false]
        · refine ⟨l, ?_, hlf⟩
          simp only [splitNl, hsr]
          split
          · exact List.mem_cons_of_mem _ (List.mem_cons_of_mem _ hmem)
          · exact List.mem_cons_of_mem _ hmem


theorem mem_dropWhile_ws {x : Char} {l : Chars} (h : x ∈ l.dropWhile isWs) : x ∈ l :=
  (List.dropWhile_sublist isWs).subset h

theorem mem_trimL {x : Char} {l : Chars} (h : x ∈ trimL l) : x ∈ l :=
  (List.dropWhile_sublist isWs).subset h

theorem mem_trimR {x : Char} {l : Chars} (h : x ∈ trimR l) : x ∈ l := by
  unfold trimR at h
  rw [List.mem_reverse] at h
  exact List.mem_reverse.mp ((List.dropWhile_sublist isWs).subset h)

theorem mem_trimB {x : Char} {l : Chars} (h : x ∈ trimB l) : x ∈ l := by
  unfold trimB at h
  exact mem_trimR (mem_trimL h)

theorem mem_dropLast {x : Char} {l : Chars} (h : x ∈ l.dropLast) : x ∈ l :=
  (List.dropLast_sublist l).subset h

theorem dropPre_subset : ∀ (p cs r : Chars), dropPre p cs = some r → ∀ x ∈ r, x ∈ cs := by
  intro p
  induction p with
  | nil =>
    intro cs r h x hx
    simp only [dropPre, Option.some.injEq] at h
    exact h ▸ hx
  | cons a ps ih =>
    intro cs r h x hx
    cases cs with
    | nil => cases h
    | cons c cr =>
      simp only [dropPre] at h
      split at h
      · exact List.mem_cons_of_mem c (ih cr r h x hx)
      · cases h

theorem chompWs1_subset {cs r : Chars} (h : chompWs1 cs = some r) : ∀ x ∈ r, x ∈ cs := by
  cases cs with
  | nil => cases h
  | cons c cr =>
    simp only [chompWs1] at h
    split at h
    · injection h with h
      subst h
      intro x hx
      exact List.mem_cons_of_mem c (mem_dropWhile_ws hx)
    · cases h

theorem splitNl_nlFree : ∀ cs : Chars, ∀ l ∈ splitNl cs, '\n' ∉ l := by
  intro cs
  induction cs with
  | nil =>
    intro l hl
    simp only [splitNl, List.mem_singleton] at hl
    subst hl
    exact List.not_mem_nil _
  | cons c r ih =>
    intro l hl
    cases hsr : splitNl r with
    | nil => exact absurd hsr (splitNl_ne_nil r)
    | cons h0 t =>
      rw [splitNl_cons_eq c r h0 t hsr] at hl
      split at hl
      · rcases List.mem_cons.mp hl with hh | hmem
        · subst hh
          exact List.not_mem_nil _
        · exact ih l (hsr ▸ hmem)
      · next hcn =>
          rcases List.mem_cons.mp hl with hh | hmem
          · subst hh
            intro hx
            rcases List.mem_cons.mp hx with hc | hx2
            · have hc' : c = '\n' := hc.symm
              subst hc'
              exact hcn rfl
            · exact ih h0 (hsr ▸ List.mem_cons_self h0 t) hx2
          · exact ih l (hsr ▸ List.mem_cons_of_mem h0 hmem)

theorem splitSemiBrace_eq_dropLast {t g1 : Chars} (h : splitSemiBrace t = some g1) :
    g1 = t.dropLast := by
  simp only [splitSemiBrace] at h
  split at h
  · split at h
    · split at h
      · split at h
        · injection h with h
          exact h.symm
        · cases h
      · cases h
    · cases h
  · cases h

theorem preSplitLine_nlFree {raw : Chars} (h : '\n' ∉ raw) :
    ∀ l ∈ preSplitLine raw, '\n' ∉ l := by
  intro l hl
  simp only [preSplitLine] at hl
  split at hl
  next g1 hg1 =>
    split at hl
    · rw [List.mem_singleton] at hl
      subst hl
      exact h
    · rcases List.mem_cons.mp hl with hh | hl2
      · subst hh
        intro hx
        exact h (mem_trimB (mem_dropLast
          (splitSemiBrace_eq_dropLast hg1 ▸ mem_trimB hx)))
      · rw [List.mem_singleton] at hl2
        subst hl2
        decide
  next hg1 =>
    rw [List.mem_singleton] at hl
    subst hl
    exact h

theorem preSplit_nlFree {lines : List Chars} (h : ∀ l ∈ lines, '\n' ∉ l) :
    ∀ l ∈ preSplit lines, '\n' ∉ l := by
  intro l hl
  unfold preSplit at hl
  rw [List.mem_flatten] at hl
  rcases hl with ⟨s, hs, hls⟩
  rw [List.mem_map] at hs
  rcases hs with ⟨raw, hraw, rfl⟩
  exact preSplitLine_nlFree (h raw hraw) l hls

theorem replaceFirstWsRun_nlFree {cs : Chars} (h : '\n' ∉ cs) :
    '\n' ∉ replaceFirstWsRun cs := by
  induction cs with
  | nil => simp [replaceFirstWsRun]
  | cons c r ih =>
    have hr : '\n' ∉ r := fun hx => h (List.mem_cons_of_mem c hx)
    simp only [replaceFirstWsRun]
    split
    · intro hm
      rcases List.mem_cons.mp hm with he | hm2
      · exact absurd he (by decide)
      · exact hr (mem_dropWhile_ws hm2)
    · intro hm
      rcases List.mem_cons.mp hm with he | hm2
      · exact h (List.mem_cons.mpr (Or.inl he))
      · exact ih hr hm2

theorem replaceFirstWsSemi_nlFree {cs : Chars} (h : '\n' ∉ cs) :
    '\n' ∉ replaceFirstWsSemi cs := by
  induction cs with
  | nil => simp [replaceFirstWsSemi]
  | cons c r ih =>
    have hr : '\n' ∉ r := fun hx => h (List.mem_cons_of_mem c hx)
    have hcons : '\n' ∉ c :: replaceFirstWsSemi r := by
      intro hm
      rcases List.mem_cons.mp hm with he | hm2
      · exact h (List.mem_cons.mpr (Or.inl he))
      · exact ih hr hm2
    simp only [replaceFirstWsSemi]
    split
    · split
      next r2 heq =>
        intro hm
        rcases List.mem_cons.mp hm with he | hm2
        · exact absurd he (by decide)
        · have h2 : '\n' ∈ r.dropWhile isWs := by
            rw [heq]
            exact List.mem_cons_of_mem _ hm2
          exact hr (mem_dropWhile_ws h2)
      next hne => exact hcons
    · exact hcons

theorem replaceFirstEq_nlFree {cs : Chars} (h : '\n' ∉ cs) :
    '\n' ∉ replaceFirstEq cs := by
  induction cs with
  | nil => simp [replaceFirstEq]
  | cons c r ih =>
    have hr : '\n' ∉ r := fun hx => h (List.mem_cons_of_mem c hx)
    have hcons : '\n' ∉ c :: replaceFirstEq r := by
      intro hm
      rcases List.mem_cons.mp hm with he | hm2
      · exact h (List.mem_cons.mpr (Or.inl he))
      · exact ih hr hm2
    simp only [replaceFirstEq]
    split
    · intro hm
      simp only [List.mem_cons] at hm
      rcases hm with he | he | he | hm2
      · exact absurd he (by decide)
      · exact absurd he (by decide)
      · exact absurd he (by decide)
      · exact hr (mem_dropWhile_ws hm2)
    · split
      · split
        next r2 heq =>
          intro hm
          simp only [List.mem_cons] at hm
          rcases hm with he | he | he | hm2
          · exact absurd he (by decide)
          · exact absurd he (by decide)
          · exact absurd he (by decide)
          · have h2 : '\n' ∈ r.dropWhile isWs := by
              rw [heq]
              exact List.mem_cons_of_mem _ (mem_dropWhile_ws hm2)
            exact hr (mem_dropWhile_ws h2)
        next hne => exact hcons
      · exact hcons

theorem remWsAfterParenF_nlFree : ∀ (fuel : Nat) (cs : Chars), '\n' ∉ cs →
    '\n' ∉ remWsAfterParenF fuel cs := by
  intro fuel
  induction fuel with
  | zero =>
    intro cs h
    simp only [remWsAfterParenF]
    exact h
  | succ n ih =>
    intro cs h
    cases cs with
    | nil => simp [remWsAfterParenF]
    | cons c r =>
      have hr : '\n' ∉ r := fun hx => h (List.mem_cons_of_mem c hx)
      simp only [remWsAfterParenF]
      split
      · intro hm
        rcases List.mem_cons.mp hm with he | hm2
        · exact absurd he (by decide)
        · exact ih _ (fun hx => hr (mem_dropWhile_ws hx)) hm2
      · intro hm
        rcases List.mem_cons.mp hm with he | hm2
        · exact h (List.mem_cons.mpr (Or.inl he))
        · exact ih r hr hm2

theorem remWsBeforeParenF_nlFree : ∀ (fuel : Nat) (cs : Chars), '\n' ∉ cs →
    '\n' ∉ remWsBeforeParenF fuel cs := by
  intro fuel
  induction fuel with
  | zero =>
    intro cs h
    simp only [remWsBeforeParenF]
    exact h
  | succ n ih =>
    intro cs h
    cases cs with
    | nil => simp [remWsBeforeParenF]
    | cons c r =>
      have hr : '\n' ∉ r := fun hx => h (List.mem_cons_of_mem c hx)
      have hcons : '\n' ∉ c :: remWsBeforeParenF n r := by
        intro hm
        rcases List.mem_cons.mp hm with he | hm2
        · exact h (List.mem_cons.mpr (Or.inl he))
        · exact ih r hr hm2
      simp only [remWsBeforeParenF]
      split
      · split
        next r2 heq =>
          intro hm
          rcases List.mem_cons.mp hm with he | hm2
          · exact absurd he (by decide)
          · have h2 : '\n' ∉ r2 := by
              intro hx
              have : '\n' ∈ r.dropWhile isWs := by
                rw [heq]
                exact List.mem_cons_of_mem _ hx
              exact hr (mem_dropWhile_ws this)
            exact ih r2 h2 hm2
        next hne => exact hcons
      · exact hcons

theorem replaceRetParen_nlFree {cs : Chars} (h : '\n' ∉ cs) :
    '\n' ∉ replaceRetParen cs := by
  induction cs with
  | nil => simp [replaceRetParen]
  | cons c r ih =>
    have hr : '\n' ∉ r := fun hx => h (List.mem_cons_of_mem c hx)
    have hcons : '\n' ∉ c :: replaceRetParen r := by
      intro hm
      rcases List.mem_cons.mp hm with he | hm2
      · exact h (List.mem_cons.mpr (Or.inl he))
      · exact ih hr hm2
    simp only [replaceRetParen]
    split
    · split
      next r1 heq1 =>
        split
        next r2 heq2 =>
          split
          next r3 heq3 =>
            split
            · rename_i r4
              intro hm
              rcases List.mem_append.mp hm with hx1 | hx2
              · exact absurd hx1 (by decide)
              · exact hr (chompWs1_subset heq1 _
                  (dropPre_subset _ _ _ heq2 _
                    (chompWs1_subset heq3 _ (List.mem_cons_of_mem _ hx2))))
            · exact hcons
          next heq3 => exact hcons
        next heq2 => exact hcons
      next heq1 => exact hcons
    · exact hcons

theorem kwWsNorm_nlFree {kw : String} {cs r : Chars} (hk : '\n' ∉ kw.data)
    (h : '\n' ∉ cs) (he : kwWsNorm kw cs = some r) : '\n' ∉ r := by
  unfold kwWsNorm at he
  split at he
  next r1 heq1 =>
    split at he
    next r2 heq2 =>
      injection he with he
      subst he
      intro hx
      rcases List.mem_append.mp hx with hx1 | hx2
      · exact hk hx1
      · rcases List.mem_cons.mp hx2 with hc | hx3
        · exact absurd hc (by decide)
        · exact h (dropPre_subset _ _ _ heq1 _ (chompWs1_subset heq2 _ hx3))
    next heq2 => cases he
  next heq1 => cases he

theorem normalizeBlockKw_nlFree {cs : Chars} (h : '\n' ∉ cs) :
    '\n' ∉ normalizeBlockKw cs := by
  unfold normalizeBlockKw
  split
  next v hv => exact kwWsNorm_nlFree (by decide) h hv
  next hv =>
    split
    next v hv2 => exact kwWsNorm_nlFree (by decide) h hv2
    next hv2 =>
      split
      next v hv3 => exact kwWsNorm_nlFree (by decide) h hv3
      next hv3 =>
        split
        next v hv4 => exact kwWsNorm_nlFree (by decide) h hv4
        next hv4 =>
          split
          next v hv5 => exact kwWsNorm_nlFree (by decide) h hv5
          next hv5 => exact h

theorem normalizeBraceEnd_nlFree {cs : Chars} (h : '\n' ∉ cs) :
    '\n' ∉ normalizeBraceEnd cs := by
  simp only [normalizeBraceEnd]
  split
  next c hc =>
    split
    · split
      · intro hx
        rcases List.mem_append.mp hx with hx1 | hx2
        · exact h (mem_dropLast (mem_trimR hx1))
        · rcases List.mem_cons.mp hx2 with h1 | h2
          · exact absurd h1 (by decide)
          · rw [List.mem_singleton] at h2
            exact absurd h2 (by decide)
      · exact h
    · exact h
  next hc => exact h

theorem classifyLine_nlFree {t : Chars} (h : '\n' ∉ t) :
    '\n' ∉ (classifyLine t).1 := by
  unfold classifyLine
  split
  · exact replaceFirstWsRun_nlFree h
  · split
    · exact replaceFirstWsRun_nlFree h
    · split
      · exact replaceFirstWsRun_nlFree h
      · split
        · exact replaceFirstWsRun_nlFree h
        · split
          · exact h
          · split
            · exact normalizeBraceEnd_nlFree (normalizeBlockKw_nlFree h)
            · split
              · exact replaceFirstWsSemi_nlFree (replaceRetParen_nlFree
                  (remWsBeforeParenF_nlFree _ _ (remWsAfterParenF_nlFree _ _ h)))
              · split
                · exact replaceFirstWsSemi_nlFree (replaceFirstEq_nlFree h)
                · split
                  · exact replaceFirstWsSemi_nlFree (replaceFirstEq_nlFree h)
                  · split
                    · exact h
                    · exact h



theorem mem_of_getLast?_eq {α : Type} {l : List α} {a : α} (h : l.getLast? = some a) :
    a ∈ l := by
  rcases List.mem_getLast?_eq_getLast (show a ∈ l.getLast? by rw [h]; exact rfl) with ⟨hne, heq⟩
  rw [heq]
  exact List.getLast_mem hne

theorem replaceFirstWsRun_ne_nil {cs : Chars} (h : cs ≠ []) : replaceFirstWsRun cs ≠ [] := by
  cases cs with
  | nil => exact absurd rfl h
  | cons c r =>
    simp only [replaceFirstWsRun]
    split
    · simp
    · simp

theorem replaceFirstEq_ne_nil {cs : Chars} (h : cs ≠ []) : replaceFirstEq cs ≠ [] := by
  cases cs with
  | nil => exact absurd rfl h
  | cons c r =>
    simp only [replaceFirstEq]
    split
    · simp
    · split
      · split
        · simp
        · simp
      · simp

theorem replaceFirstWsSemi_ne_nil {cs : Chars} (h : cs ≠ []) : replaceFirstWsSemi cs ≠ [] := by
  cases cs with
  | nil => exact absurd rfl h
  | cons c r =>
    simp only [replaceFirstWsSemi]
    split
    · split
      · simp
      · simp
    · simp

theorem remWsAfterParenF_ne_nil : ∀ (fuel : Nat) (cs : Chars), cs ≠ [] →
    remWsAfterParenF fuel cs ≠ [] := by
  intro fuel
  induction fuel with
  | zero =>
    intro cs h
    simp only [remWsAfterParenF]
    exact h
  | succ n ih =>
    intro cs h
    cases cs with
    | nil => exact absurd rfl h
    | cons c r =>
      simp only [remWsAfterParenF]
      split
      · simp
      · simp

theorem remWsBeforeParenF_ne_nil : ∀ (fuel : Nat) (cs : Chars), cs ≠ [] →
    remWsBeforeParenF fuel cs ≠ [] := by
  intro fuel
  induction fuel with
  | zero =>
    intro cs h
    simp only [remWsBeforeParenF]
    exact h
  | succ n ih =>
    intro cs h
    cases cs with
    | nil => exact absurd rfl h
    | cons c r =>
      simp only [remWsBeforeParenF]
      split
      · split
        · simp
        · simp
      · simp

theorem replaceRetParen_ne_nil {cs : Chars} (h : cs ≠ []) : replaceRetParen cs ≠ [] := by
  cases cs with
  | nil => exact absurd rfl h
  | cons c r =>
    simp only [replaceRetParen]
    split
    · split
      next r1 heq1 =>
        split
        next r2 heq2 =>
          split
          next r3 heq3 =>
            split
            · intro hx
              exact absurd (List.append_eq_nil.mp hx).1 (by decide)
            · simp
          next heq3 => simp
        next heq2 => simp
      next heq1 => simp
    · simp

theorem kwWsNorm_ne_nil {kw : String} {cs r : Chars} (he : kwWsNorm kw cs = some r) :
    r ≠ [] := by
  unfold kwWsNorm at he
  split at he
  next r1 heq1 =>
    split at he
    next r2 heq2 =>
      injection he with he
      subst he
      simp
    next heq2 => cases he
  next heq1 => cases he

theorem normalizeBlockKw_ne_nil {cs : Chars} (h : cs ≠ []) : normalizeBlockKw cs ≠ [] := by
  unfold normalizeBlockKw
  split
  next v hv => exact kwWsNorm_ne_nil hv
  next =>
    split
    next v hv => exact kwWsNorm_ne_nil hv
    next =>
      split
      next v hv => exact kwWsNorm_ne_nil hv
      next =>
        split
        next v hv => exact kwWsNorm_ne_nil hv
        next =>
          split
          next v hv => exact kwWsNorm_ne_nil hv
          next => exact h

theorem normalizeBraceEnd_ne_nil {cs : Chars} (h : cs ≠ []) : normalizeBraceEnd cs ≠ [] := by
  simp only [normalizeBraceEnd]
  split
  next c hc =>
    split
    · split
      · intro hx
        rcases List.append_eq_nil.mp hx with ⟨_, h2⟩
        cases h2
      · exact h
    · exact h
  next hc => exact h

theorem classifyLine_ne_nil {t : Chars} (h : t ≠ []) : (classifyLine t).1 ≠ [] := by
  unfold classifyLine
  split
  · exact replaceFirstWsRun_ne_nil h
  · split
    · exact replaceFirstWsRun_ne_nil h
    · split
      · exact replaceFirstWsRun_ne_nil h
      · split
        · exact replaceFirstWsRun_ne_nil h
        · split
          · exact h
          · split
            · exact normalizeBraceEnd_ne_nil (normalizeBlockKw_ne_nil h)
            · split
              · exact replaceFirstWsSemi_ne_nil (replaceRetParen_ne_nil
                  (remWsBeforeParenF_ne_nil _ _ (remWsAfterParenF_ne_nil _ _ h)))
              · split
                · exact replaceFirstWsSemi_ne_nil (replaceFirstEq_ne_nil h)
                · split
                  · exact replaceFirstWsSemi_ne_nil (replaceFirstEq_ne_nil h)
                  · split
                    · exact h
                    · exact h

theorem preSplitLine_of_all_ws {raw : Chars} (h : raw.all isWs = true) :
    preSplitLine raw = [raw] := by
  have htr : trimB raw = [] := (trimB_eq_nil_iff raw).mpr h
  simp only [preSplitLine, htr]
  rfl

theorem preSplit_all_ws {lines : List Chars} (h : ∀ l ∈ lines, l.all isWs = true) :
    ∀ l ∈ preSplit lines, l.all isWs = true := by
  intro l hl
  unfold preSplit at hl
  rw [List.mem_flatten] at hl
  rcases hl with ⟨s, hs, hls⟩
  rw [List.mem_map] at hs
  rcases hs with ⟨raw, hraw, rfl⟩
  rw [preSplitLine_of_all_ws (h raw hraw)] at hls
  rw [List.mem_singleton] at hls
  rw [hls]
  exact h raw hraw

theorem preSplitLine_ex {raw : Chars} (h : raw.all isWs = false) :
    ∃ l ∈ preSplitLine raw, l.all isWs = false := by
  simp only [preSplitLine]
  split
  next g1 hg1 =>
    split
    · exact ⟨raw, List.mem_singleton.mpr rfl, h⟩
    · refine ⟨[rbrace], ?_, by decide⟩
      exact List.mem_cons_of_mem _ (List.mem_cons_self _ _)
  next hg1 => exact ⟨raw, List.mem_singleton.mpr rfl, h⟩

theorem preSplit_ex {lines : List Chars} (h : ∃ l ∈ lines, l.all isWs = false) :
    ∃ l ∈ preSplit lines, l.all isWs = false := by
  rcases h with ⟨raw, hraw, hrawf⟩
  rcases preSplitLine_ex hrawf with ⟨l, hl, hlf⟩
  refine ⟨l, ?_, hlf⟩
  unfold preSplit
  rw [List.mem_flatten]
  exact ⟨preSplitLine raw, List.mem_map_of_mem _ hraw, hl⟩

theorem firstPassF_cons_blank (raw : Chars) (n d : Nat) (rest : List Chars)
    (htr : trimB (trimR raw) = []) :
    firstPassF (n + 1) (raw :: rest) d false = firstPassF n rest d false := by
  simp only [firstPassF, htr]
  rfl

theorem firstPassF_all_ws : ∀ (fuel : Nat) (ls : List Chars) (d : Nat),
    (∀ l ∈ ls, l.all isWs = true) → firstPassF fuel ls d false = [] := by
  intro fuel
  induction fuel with
  | zero => intro ls d _; rfl
  | succ n ih =>
    intro ls d h
    cases ls with
    | nil => rfl
    | cons raw rest =>
      rw [firstPassF_cons_blank raw n d rest
        ((trimB_trimR_eq_nil_iff raw).mpr (h raw (List.mem_cons_self raw rest)))]
      exact ih rest d (fun l hl => h l (List.mem_cons_of_mem raw hl))

theorem firstPassF_text_nlFree : ∀ (fuel : Nat) (ls : List Chars) (d : Nat) (b : Bool),
    (∀ l ∈ ls, '\n' ∉ l) → ∀ tok ∈ firstPassF fuel ls d b, '\n' ∉ tok.text := by
  intro fuel
  induction fuel with
  | zero => intro ls d b _ tok htok; cases htok
  | succ n ih =>
    intro ls d b h tok htok
    cases ls with
    | nil => cases htok
    | cons raw rest =>
      have hraw : '\n' ∉ raw := h raw (List.mem_cons_self raw rest)
      have hrest : ∀ l ∈ rest, '\n' ∉ l := fun l hl => h l (List.mem_cons_of_mem raw hl)
      have htrim : '\n' ∉ trimB (trimR raw) := fun hx => hraw (mem_trimR (mem_trimB hx))
      simp only [firstPassF] at htok
      split at htok
      · rcases List.mem_cons.mp htok with rfl | htok2
        · exact htrim
        · exact ih rest d _ hrest tok htok2
      · split at htok
        · rcases List.mem_cons.mp htok with rfl | htok2
          · exact htrim
          · exact ih rest d _ hrest tok htok2
        · split at htok
          · exact ih rest d false hrest tok htok
          · split at htok
            · rcases List.mem_cons.mp htok with rfl | htok2
              · exact htrim
              · exact ih rest _ false hrest tok htok2
            · split at htok
              · split at htok
                next l2 rest2 heq =>
                  have hsub : ∀ l ∈ rest2, l ∈ rest := fun l hl =>
                    (List.dropWhile_sublist _).subset (heq ▸ List.mem_cons_of_mem l2 hl)
                  split at htok
                  · rcases List.mem_cons.mp htok with rfl | htok2
                    · intro hx
                      rcases List.mem_append.mp hx with hx1 | hx2
                      · exact classifyLine_nlFree htrim hx1
                      · rcases List.mem_cons.mp hx2 with h1 | h2
                        · exact absurd h1 (by decide)
                        · rw [List.mem_singleton] at h2
                          exact absurd h2 (by decide)
                    · exact ih rest2 _ false (fun l hl => hrest l (hsub l hl)) tok htok2
                  · rcases List.mem_cons.mp htok with rfl | htok2
                    · exact classifyLine_nlFree htrim
                    · exact ih rest _ false hrest tok htok2
                next heq =>
                  rcases List.mem_cons.mp htok with rfl | htok2
                  · exact classifyLine_nlFree htrim
                  · exact ih rest _ false hrest tok htok2
              · rcases List.mem_cons.mp htok with rfl | htok2
                · exact classifyLine_nlFree htrim
                · exact ih rest _ false hrest tok htok2

theorem firstPassF_ex_token : ∀ (fuel : Nat) (ls : List Chars) (d : Nat) (b : Bool),
    ls.length ≤ fuel → (∃ l ∈ ls, l.all isWs = false) →
    ∃ tok ∈ firstPassF fuel ls d b, tok.text ≠ [] := by
  intro fuel
  induction fuel with
  | zero =>
    intro ls d b hlen hwit
    rcases hwit with ⟨l, hl, _⟩
    rw [Nat.le_zero, List.length_eq_zero] at hlen
    subst hlen
    cases hl
  | succ n ih =>
    intro ls d b hlen hwit
    cases ls with
    | nil =>
      rcases hwit with ⟨l, hl, _⟩
      cases hl
    | cons raw rest =>
      have hlen' : rest.length ≤ n := Nat.le_of_succ_le_succ hlen
      cases hws : raw.all isWs with
      | true =>
        have hwit' : ∃ l ∈ rest, l.all isWs = false := by
          rcases hwit with ⟨l, hl, hlf⟩
          rcases List.mem_cons.mp hl with rfl | hl2
          · rw [hws] at hlf; cases hlf
          · exact ⟨l, hl2, hlf⟩
        have htr0 : trimB (trimR raw) = [] := (trimB_trimR_eq_nil_iff raw).mpr hws
        simp only [firstPassF, htr0]
        split
        · rcases ih rest d (!hasSub "*/".data ([] : Chars)) hlen' hwit' with ⟨tok, htok, hne⟩
          exact ⟨tok, List.mem_cons_of_mem _ htok, hne⟩
        · split
          next hS => exact absurd hS (by decide)
          next hS =>
            split
            next hE =>
              rcases ih rest d false hlen' hwit' with ⟨tok, htok, hne⟩
              exact ⟨tok, htok, hne⟩
            next hE => exact absurd rfl hE
      | false =>
        have htr : trimB (trimR raw) ≠ [] := by
          intro hx
          rw [trimB_trimR_eq_nil_iff] at hx
          rw [hx] at hws
          cases hws
        simp only [firstPassF]
        split
        · refine ⟨_, List.mem_cons_self _ _, ?_⟩
          exact htr
        · split
          · refine ⟨_, List.mem_cons_self _ _, ?_⟩
            exact htr
          · split
            next hE => exact absurd (List.isEmpty_iff.mp hE) htr
            next hE =>
              split
              · refine ⟨_, List.mem_cons_self _ _, ?_⟩
                exact htr
              · split
                · split
                  next l2 rest2 heq =>
                    split
                    · refine ⟨_, List.mem_cons_self _ _, ?_⟩
                      intro hx
                      rcases List.append_eq_nil.mp hx with ⟨_, h2⟩
                      cases h2
                    · refine ⟨_, List.mem_cons_self _ _, ?_⟩
                      exact classifyLine_ne_nil htr
                  next heq =>
                    refine ⟨_, List.mem_cons_self _ _, ?_⟩
                    exact classifyLine_ne_nil htr
                · refine ⟨_, List.mem_cons_self _ _, ?_⟩
                  exact classifyLine_ne_nil htr

theorem renderTok_nlFree {t : FTok} (h : '\n' ∉ t.text) : '\n' ∉ renderTok t := by
  intro hx
  simp only [renderTok, indentCh] at hx
  rcases List.mem_append.mp hx with hx1 | hx2
  · exact absurd (List.eq_of_mem_replicate hx1) (by decide)
  · exact h hx2

theorem renderTok_ne_nil {t : FTok} (h : t.text ≠ []) : renderTok t ≠ [] := by
  simp only [renderTok]
  intro hx
  exact h (List.append_eq_nil.mp hx).2

theorem insertBlanksGo_nlFree {prev : FTok} {ts : List FTok}
    (h : ∀ tok ∈ ts, '\n' ∉ tok.text) :
    ∀ l ∈ insertBlanksGo prev ts, '\n' ∉ l := by
  induction ts generalizing prev with
  | nil => intro l hl; cases hl
  | cons t ts ih =>
    intro l hl
    have ht : '\n' ∉ t.text := h t (List.mem_cons_self t ts)
    have hts : ∀ tok ∈ ts, '\n' ∉ tok.text :=
      fun tok htok => h tok (List.mem_cons_of_mem t htok)
    simp only [insertBlanksGo] at hl
    rcases List.mem_append.mp hl with h1 | h2
    · split at h1
      · rw [List.mem_singleton] at h1
        subst h1
        exact List.not_mem_nil _
      · cases h1
    · rcases List.mem_cons.mp h2 with rfl | h3
      · exact renderTok_nlFree ht
      · exact ih hts l h3

theorem insertBlanks_nlFree {ts : List FTok} (h : ∀ tok ∈ ts, '\n' ∉ tok.text) :
    ∀ l ∈ insertBlanks ts, '\n' ∉ l := by
  cases ts with
  | nil => intro l hl; cases hl
  | cons t ts =>
    intro l hl
    simp only [insertBlanks] at hl
    rcases List.mem_cons.mp hl with rfl | h2
    · exact renderTok_nlFree (h t (List.mem_cons_self t ts))
    · exact insertBlanksGo_nlFree
        (fun tok htok => h tok (List.mem_cons_of_mem t htok)) l h2

theorem insertBlanksGo_ex {prev : FTok} {ts : List FTok}
    (h : ∃ tok ∈ ts, tok.text ≠ []) :
    ∃ l ∈ insertBlanksGo prev ts, l ≠ [] := by
  induction ts generalizing prev with
  | nil =>
    rcases h with ⟨tok, htok, _⟩
    cases htok
  | cons t ts ih =>
    rcases h with ⟨tok, htok, hne⟩
    rcases List.mem_cons.mp htok with rfl | h2
    · refine ⟨renderTok tok, ?_, renderTok_ne_nil hne⟩
      simp only [insertBlanksGo]
      exact List.mem_append_right _ (List.mem_cons_self _ _)
    · rcases @ih t ⟨tok, h2, hne⟩ with ⟨l, hl, hlne⟩
      refine ⟨l, ?_, hlne⟩
      simp only [insertBlanksGo]
      exact List.mem_append_right _ (List.mem_cons_of_mem _ hl)

theorem insertBlanks_ex {ts : List FTok} (h : ∃ tok ∈ ts, tok.text ≠ []) :
    ∃ l ∈ insertBlanks ts, l ≠ [] := by
  cases ts with
  | nil =>
    rcases h with ⟨tok, htok, _⟩
    cases htok
  | cons t ts =>
    rcases h with ⟨tok, htok, hne⟩
    rcases List.mem_cons.mp htok with rfl | h2
    · refine ⟨renderTok tok, ?_, renderTok_ne_nil hne⟩
      simp only [insertBlanks]
      exact List.mem_cons_self _ _
    · rcases @insertBlanksGo_ex t ts ⟨tok, h2, hne⟩ with ⟨l, hl, hlne⟩
      refine ⟨l, ?_, hlne⟩
      simp only [insertBlanks]
      exact List.mem_cons_of_mem _ hl

theorem dropTrailingEmpties_ne_nil {ls : List Chars} (h : ∃ l ∈ ls, l ≠ []) :
    dropTrailingEmpties ls ≠ [] := by
  rcases h with ⟨l, hl, hlne⟩
  unfold dropTrailingEmpties
  intro hx
  rw [List.reverse_eq_nil_iff, List.dropWhile_eq_nil_iff] at hx
  have := hx l (List.mem_reverse.mpr hl)
  rw [List.isEmpty_iff] at this
  exact hlne this

theorem dropTrailingEmpties_subset {ls : List Chars} :
    ∀ l ∈ dropTrailingEmpties ls, l ∈ ls := by
  intro l hl
  unfold dropTrailingEmpties at hl
  rw [List.mem_reverse] at hl
  exact List.mem_reverse.mp ((List.dropWhile_sublist _).subset hl)

theorem head_dropWhile_isEmpty_ne : ∀ (ls : List Chars) (x : Chars),
    (ls.dropWhile (fun l => l.isEmpty)).head? = some x → x ≠ [] := by
  intro ls
  induction ls with
  | nil => intro x hx; cases hx
  | cons a as ih =>
    intro x hx
    rw [List.dropWhile_cons] at hx
    split at hx
    · exact ih x hx
    · next hp =>
        simp only [List.head?_cons, Option.some.injEq] at hx
        subst hx
        intro hxx
        subst hxx
        exact hp rfl

theorem dte_getLast_ne_nil {ls : List Chars} {g : Chars}
    (h : (dropTrailingEmpties ls).getLast? = some g) : g ≠ [] := by
  unfold dropTrailingEmpties at h
  rw [List.getLast?_reverse] at h
  exact head_dropWhile_isEmpty_ne _ g h

theorem joinNl_append_nil : ∀ (xs : List Chars), xs ≠ [] →
    joinNl (xs ++ [[]]) = joinNl xs ++ ['\n'] := by
  intro xs
  induction xs with
  | nil => intro h; exact absurd rfl h
  | cons x t ih =>
    intro _
    cases t with
    | nil => rfl
    | cons y u =>
      have hstep : joinNl ((y :: u) ++ [[]]) = joinNl (y :: u) ++ ['\n'] := ih (by simp)
      rw [List.cons_append]
      rw [show joinNl (x :: ((y :: u) ++ [[]])) =
        x ++ '\n' :: joinNl ((y :: u) ++ [[]]) from rfl]
      rw [hstep]
      rw [show joinNl (x :: y :: u) = x ++ '\n' :: joinNl (y :: u) from rfl]
      simp

theorem joinNl_ne_nil : ∀ (y : Chars) (t : List Chars),
    (y :: t).getLast? ≠ some [] → joinNl (y :: t) ≠ [] := by
  intro y t h
  cases t with
  | nil =>
    intro hx
    have hy : y = [] := hx
    subst hy
    exact h rfl
  | cons z u =>
    intro hx
    have hx' : y ++ '\n' :: joinNl (z :: u) = [] := hx
    exact absurd (List.append_eq_nil.mp hx').2 (by simp)

theorem getLast?_append_cons (l : Chars) (a : Char) (m : Chars) :
    (l ++ a :: m).getLast? = (a :: m).getLast? := by
  induction l with
  | nil => rfl
  | cons b bs ih =>
    cases bs with
    | nil =>
      rw [List.singleton_append, List.getLast?_cons_cons]
    | cons c cs =>
      rw [List.cons_append, List.cons_append, List.getLast?_cons_cons, ← List.cons_append]
      exact ih

theorem joinNl_getLast_ne_nl : ∀ (xs : List Chars), xs ≠ [] →
    (∀ l ∈ xs, '\n' ∉ l) → xs.getLast? ≠ some [] →
    (joinNl xs).getLast? ≠ some '\n' := by
  intro xs
  induction xs with
  | nil => intro h; exact absurd rfl h
  | cons x t ih =>
    intro _ hnl hlast
    cases t with
    | nil =>
      intro hx
      have hx' : x.getLast? = some '\n' := hx
      exact (hnl x (List.mem_cons_self _ _)) (mem_of_getLast?_eq hx')
    | cons y u =>
      have hlast' : (y :: u).getLast? ≠ some [] := by
        intro hc
        apply hlast
        rw [List.getLast?_cons_cons]
        exact hc
      have hJ : joinNl (y :: u) ≠ [] := joinNl_ne_nil y u hlast'
      have ihy := ih (by simp) (fun l hl => hnl l (List.mem_cons_of_mem x hl)) hlast'
      intro hx
      have hrw : joinNl (x :: y :: u) = x ++ '\n' :: joinNl (y :: u) := rfl
      rw [hrw, getLast?_append_cons] at hx
      cases hJc : joinNl (y :: u) with
      | nil => exact hJ hJc
      | cons z w =>
        rw [hJc, List.getLast?_cons_cons] at hx
        apply ihy
        rw [hJc]
        exact hx

theorem endsWith_single_append (a : Char) (l : Chars) :
    endsWith [a] (l ++ [a]) = true := by
  unfold endsWith
  rw [List.reverse_append]
  simp [List.isPrefixOf]

theorem endsWith_two_append (a : Char) (l : Chars)
    (h : l.getLast? ≠ some a) : endsWith [a, a] (l ++ [a]) = false := by
  unfold endsWith
  rw [List.reverse_append]
  have hh : l.reverse.head? ≠ some a := by
    rw [List.head?_reverse]
    exact h
  cases hrev : l.reverse with
  | nil => simp [List.isPrefixOf]
  | cons c m =>
    have hca : (a == c) = false := by
      have hcne : c ≠ a := by
        intro hc
        apply hh
        rw [hrev, hc]
        exact rfl
      cases hac : a == c
      · rfl
      · rw [beq_iff_eq] at hac
        exact absurd hac.symm hcne
    simp [List.isPrefixOf, hca]

theorem format_all_ws {s : String} (h : s.data.all isWs = true) : format s = "" := by
  unfold format formatTokens firstPass
  rw [firstPassF_all_ws _ _ _ (preSplit_all_ws (splitNl_all_ws s.data h))]
  rfl

theorem format_endsWith {s : String} (h : s.data.all isWs = false) :
    endsWith "\n".data (format s).data = true ∧
    endsWith "\n\n".data (format s).data = false := by
  have hex1 := preSplit_ex (splitNl_ex_nonws s.data h)
  have hex2 := firstPassF_ex_token (preSplit (splitNl s.data)).length
      (preSplit (splitNl s.data)) 0 false (Nat.le_refl _) hex1
  have hex3 : ∃ l ∈ insertBlanks (formatTokens s), l ≠ [] := insertBlanks_ex hex2
  have hnl2 := firstPassF_text_nlFree (preSplit (splitNl s.data)).length
      (preSplit (splitNl s.data)) 0 false (preSplit_nlFree (splitNl_nlFree s.data))
  have hnl3 : ∀ l ∈ insertBlanks (formatTokens s), '\n' ∉ l := insertBlanks_nlFree hnl2
  have hysne : dropTrailingEmpties (insertBlanks (formatTokens s)) ≠ [] :=
    dropTrailingEmpties_ne_nil hex3
  have hysnl : ∀ l ∈ dropTrailingEmpties (insertBlanks (formatTokens s)), '\n' ∉ l :=
    fun l hl => hnl3 l (dropTrailingEmpties_subset l hl)
  have hyslast : (dropTrailingEmpties (insertBlanks (formatTokens s))).getLast? ≠ some [] := by
    intro hc
    exact dte_getLast_ne_nil hc rfl
  have hform : (format s).data =
      joinNl (dropTrailingEmpties (insertBlanks (formatTokens s))) ++ ['\n'] := by
    show joinNl (dropTrailingEmpties (insertBlanks (formatTokens s)) ++ [[]]) =
      joinNl (dropTrailingEmpties (insertBlanks (formatTokens s))) ++ ['\n']
    exact joinNl_append_nil _ hysne
  constructor
  · rw [hform]
    exact endsWith_single_append '\n' _
  · rw [hform]
    exact endsWith_two_append '\n' _ (joinNl_getLast_ne_nl _ hysne hysnl hyslast)

/-! ## C10: the formatter's trailing-newline guarantee -/

/-- C10: counterexample to the claim that for every input the string returned
by `format` is terminated by exactly one newline: on the empty input `format`
returns the empty string, which does not end in a newline at all. -/
theorem c10_format_empty_cex :
    format "" = "" ∧ endsWith "\n".data (format "").data = false := by
  constructor
  · rfl
  · rfl

/-- C10 (amended): if every character of the input is whitespace (in
particular for the empty input), `format` returns the empty string; for every
other input the output has its trailing blank lines trimmed and is terminated
by exactly one newline: it ends in a newline and does not end in two. -/
theorem c10_format_trailing_newline (s : String) :
    (s.data.all isWs = true → format s = "") ∧
    (s.data.all isWs = false →
      endsWith "\n".data (format s).data = true ∧
      endsWith "\n\n".data (format s).data = false) :=
  ⟨fun h => format_all_ws h, fun h => format_endsWith h⟩

/-- Witness for the amended C10 theorem at the concrete inputs a whitespace
line and a one-character file. -/
theorem c10_format_trailing_newline_witness :
    format " \n " = "" ∧
    (endsWith "\n".data (format "a").data = true ∧
      endsWith "\n\n".data (format "a").data = false) :=
  ⟨(c10_format_trailing_newline " \n ").1 (by decide),
   (c10_format_trailing_newline "a").2 (by decide)⟩

end Protolint
